import Mathlib

/-!
Verification of the SIFT3D core (sift.c) against its specification.

Shallow embedding conventions:
* C `float`/`double` scalars are modelled as exact real numbers (`ℝ`); the
  claims under study do not hinge on rounding.  `DBL_EPSILON = 2^-52` and
  `FLT_EPSILON = 2^-23` appear as exact constants.
* C `(int)` casts of real values truncate toward zero (`c2i` below).
* Images are total functions `ℤ → ℤ → ℤ → ℝ`; the code only reads voxels
  inside the loop bounds that each routine establishes.
* Collaborator routines that live in `imutil.c`/`macros.h` rather than in
  `sift.c` (voxel-wise `im_subtract`, the central-difference gradient macro,
  the raster-order of the loop macros) are modelled from the specification's
  collaborator contract; each such definition says so in its doc comment.
-/

/-! ## Common constants (sift.c lines 54-62) -/

/-- DBL_EPSILON, exact. -/
noncomputable def dblEps : ℝ := 1 / 2 ^ 52

/-- FLT_EPSILON, exact. -/
noncomputable def fltEps : ℝ := 1 / 2 ^ 23

/-- bary_eps = FLT_EPSILON * 1E1 (sift.c line 57). -/
noncomputable def baryEps : ℝ := fltEps * 10

/-- ori_grad_thresh (sift.c line 56). -/
noncomputable def oriGradThresh : ℝ := 1e-10

/-- max_eig_ratio (sift.c line 55). -/
noncomputable def maxEigRatio : ℝ := 0.90

/-- Truncation toward zero, the semantics of a C `(int)` cast. -/
noncomputable def c2i (r : ℝ) : ℤ := if 0 ≤ r then ⌊r⌋ else -⌊-r⌋

/-- Inclusive integer range `[lo, lo + n)` as a list, in increasing order. -/
def intRangeAux (lo : ℤ) : ℕ → List ℤ
  | 0 => []
  | n + 1 => lo :: intRangeAux (lo + 1) n

/-- Inclusive integer range `[lo, hi]` as a list, in increasing order; the
index sequence of a C loop `for (i = lo; i <= hi; i++)`. -/
def intRange (lo hi : ℤ) : List ℤ := intRangeAux lo (hi + 1 - lo).toNat

theorem mem_intRangeAux {lo x : ℤ} {n : ℕ} :
    x ∈ intRangeAux lo n ↔ lo ≤ x ∧ x < lo + n := by
  induction n generalizing lo with
  | zero => simp [intRangeAux]
  | succ m ih =>
    simp only [intRangeAux, List.mem_cons, ih]
    omega

theorem mem_intRange {lo hi x : ℤ} : x ∈ intRange lo hi ↔ lo ≤ x ∧ x ≤ hi := by
  rw [intRange, mem_intRangeAux]
  omega

/-! ## C6: set_peak_thresh_SIFT3D (sift.c lines 424-435)

The setter returns failure (carrying its one-line diagnostic) for
`peak_thresh <= 0.0` and otherwise stores the value and returns success. -/

/-- set_peak_thresh_SIFT3D: on failure the diagnostic line is returned, on
success the stored `peak_thresh` value. -/
noncomputable def set_peak_thresh_SIFT3D (peak_thresh : ℝ) : Except String ℝ :=
  if peak_thresh ≤ 0 then
    Except.error "SIFT3D peak_thresh must be greater than 0."
  else
    Except.ok peak_thresh

/-- Claim C6: the setter rejects exactly the arguments `peak_thresh ≤ 0`
(with a diagnostic and a failure return), and accepts every positive
argument, storing it. -/
theorem C6_set_peak_thresh_spec (p : ℝ) :
    (p ≤ 0 → set_peak_thresh_SIFT3D p =
      Except.error "SIFT3D peak_thresh must be greater than 0.") ∧
    (0 < p → set_peak_thresh_SIFT3D p = Except.ok p) := by
  constructor
  · intro h
    simp [set_peak_thresh_SIFT3D, h]
  · intro h
    simp [set_peak_thresh_SIFT3D, not_le.mpr h]

/-- Witness for C6 at the spec's concrete scenarios: `0.0` is rejected and
`0.01` is accepted. -/
theorem C6_set_peak_thresh_spec_witness :
    ((0 : ℝ) ≤ 0 ∧ set_peak_thresh_SIFT3D 0 =
      Except.error "SIFT3D peak_thresh must be greater than 0.") ∧
    ((0 : ℝ) < 0.01 ∧ set_peak_thresh_SIFT3D 0.01 = Except.ok 0.01) :=
  ⟨⟨le_refl 0, (C6_set_peak_thresh_spec 0).1 (le_refl 0)⟩,
   ⟨by norm_num, (C6_set_peak_thresh_spec 0.01).2 (by norm_num)⟩⟩

/-! ## C3: resize_SIFT3D octave computation (sift.c lines 869-906)

When `num_octaves = -1`, the code computes
`last_octave = (int) log2(min(nx,ny,nz)) - 3 - first_octave` and then
`num_octaves = last_octave - first_octave + 1`, so `first_octave` is
subtracted twice in `num_octaves`. -/

/-- `(int) log2((double) n)` for a positive integer `n`: the floor of the
base-2 logarithm. -/
def ilog2 (n : ℕ) : ℤ := Nat.log 2 n

/-- resize_SIFT3D, octave-count computation: given the image dimensions, the
first octave and the requested `num_octaves` (−1 meaning unspecified),
returns the `(last_octave, num_octaves)` pair the code stores. -/
def resize_octaves (nx ny nz : ℕ) (first_octave num_octaves_req : ℤ) :
    ℤ × ℤ :=
  if num_octaves_req = -1 then
    let last_octave : ℤ := ilog2 (min (min nx ny) nz) - 3 - first_octave
    (last_octave, last_octave - first_octave + 1)
  else
    (num_octaves_req + first_octave - 1, num_octaves_req)

theorem ilog2_128 : ilog2 128 = 7 := by
  have : Nat.log 2 128 = 7 :=
    Nat.log_eq_of_pow_le_of_lt_pow (by norm_num) (by norm_num)
  simp [ilog2, this]

theorem ilog2_min128 : ilog2 (min (min 128 128) 128) = 7 := by
  rw [show min (min (128 : ℕ) 128) 128 = 128 from by norm_num]
  exact ilog2_128

/-- Counterexample to claim C3 as stated: for a 128³ image with
`first_octave = 1`, the code computes `num_octaves = 3`, while the claimed
formula `floor(log2(min(nx,ny,nz))) − 3 − first_octave + 1` gives `4`. -/
theorem C3_counterexample :
    (resize_octaves 128 128 128 1 (-1)).2 = 3 ∧
    ilog2 (min (min 128 128) 128) - 3 - 1 + 1 = 4 := by
  constructor
  · unfold resize_octaves
    rw [if_pos rfl]
    rw [show ((128:ℕ) ⊓ 128 ⊓ 128) = 128 from by norm_num, ilog2_128]
    norm_num
  · rw [ilog2_min128]
    norm_num

/-- Claim C3 (amended): with `num_octaves` unspecified (−1), the code sets
`last_octave = floor(log2(min(nx,ny,nz))) − 3 − first_octave` and
`num_octaves = floor(log2(min(nx,ny,nz))) − 3 − 2·first_octave + 1`; in
particular a 128×128×128 input with `first_octave = 0` yields
`last_octave = 4` and `num_octaves = 5`. -/
theorem C3_resize_octaves_amended (nx ny nz : ℕ) (first_octave : ℤ) :
    (resize_octaves nx ny nz first_octave (-1)).1 =
      ilog2 (min (min nx ny) nz) - 3 - first_octave ∧
    (resize_octaves nx ny nz first_octave (-1)).2 =
      ilog2 (min (min nx ny) nz) - 3 - 2 * first_octave + 1 ∧
    (resize_octaves 128 128 128 0 (-1)).1 = 4 ∧
    (resize_octaves 128 128 128 0 (-1)).2 = 5 := by
  refine ⟨?_, ?_, ?_, ?_⟩
  · unfold resize_octaves
    rw [if_pos rfl]
  · unfold resize_octaves
    rw [if_pos rfl]
    ring
  · unfold resize_octaves
    rw [if_pos rfl]
    rw [show ((128:ℕ) ⊓ 128 ⊓ 128) = 128 from by norm_num, ilog2_128]
    norm_num
  · unfold resize_octaves
    rw [if_pos rfl]
    rw [show ((128:ℕ) ⊓ 128 ⊓ 128) = 128 from by norm_num, ilog2_128]
    norm_num

/-! ## C2: build_dog (sift.c lines 962-981)

The loop writes `dog[o][s] = im_subtract(gpyr[o][s], gpyr[o][s+1])` for every
`(o, s)` in the DoG pyramid's index ranges, i.e. the lower-blur level minus
the higher-blur one. -/

/-- A 3D scalar volume with exact voxel values. -/
def Im3 : Type := ℤ → ℤ → ℤ → ℝ

/-- Modelled from the spec: the image-algebra collaborator contract
`subtract(a, b, dst)` — voxel-wise difference (`im_subtract` lives in
imutil.c, which is not part of sift.c); `dst = a − b`. -/
def im_subtract (a b : Im3) : Im3 :=
  fun x y z => a x y z - b x y z

/-- Index pairs `(o, s)` visited by `SIFT3D_PYR_LOOP_START(dog, o, s)`:
octaves `first_octave..last_octave` outer, levels `first_level..last_level`
inner. -/
def pyrIndices (firstOctave lastOctave firstLevel lastLevel : ℤ) :
    List (ℤ × ℤ) :=
  (intRange firstOctave lastOctave).flatMap fun o =>
    (intRange firstLevel lastLevel).map fun s => (o, s)

/-- build_dog: iterates over the DoG pyramid indices, storing at each `(o,s)`
the voxel-wise `im_subtract` of Gaussian levels `s` and `s+1` of octave `o`.
The level store is indexed by the `(octave, level)` pair. -/
def build_dog (gpyr : ℤ → ℤ → Im3) (dogInit : ℤ × ℤ → Im3)
    (firstOctave lastOctave firstLevel lastLevel : ℤ) : ℤ × ℤ → Im3 :=
  (pyrIndices firstOctave lastOctave firstLevel lastLevel).foldl
    (fun dog os =>
      Function.update dog os
        (im_subtract (gpyr os.1 os.2) (gpyr os.1 (os.2 + 1))))
    dogInit

/-- Helper: a fold of keyed updates leaves keys outside the list unchanged. -/
theorem foldl_update_not_mem {α : Type} [DecidableEq α] {β : Type}
    (f : α → β) (l : List α) (init : α → β) (p : α) (hp : p ∉ l) :
    (l.foldl (fun s q => Function.update s q (f q)) init) p = init p := by
  induction l generalizing init with
  | nil => rfl
  | cons q rest ih =>
    have hq : p ≠ q := fun h => hp (h ▸ List.mem_cons_self q rest)
    have hr : p ∉ rest := fun h => hp (List.mem_cons_of_mem q h)
    simp only [List.foldl_cons]
    rw [ih _ hr]
    exact Function.update_noteq hq _ _

/-- Helper: a fold of keyed updates whose written value depends only on the
key evaluates, at any key in the list, to that key's value. -/
theorem foldl_update_eval {α : Type} [DecidableEq α] {β : Type}
    (f : α → β) (l : List α) (init : α → β) (p : α) (hp : p ∈ l) :
    (l.foldl (fun s q => Function.update s q (f q)) init) p = f p := by
  induction l generalizing init with
  | nil => cases hp
  | cons q rest ih =>
    by_cases hmem : p ∈ rest
    · exact ih _ hmem
    · have hpq : p = q := by
        rcases List.mem_cons.mp hp with h | h
        · exact h
        · exact absurd h hmem
      subst hpq
      simp only [List.foldl_cons]
      rw [foldl_update_not_mem _ _ _ _ hmem]
      simp

/-- Counterexample to claim C2 as stated: with constant Gaussian levels
`gpyr[o][0] = 0` and `gpyr[o][1] = 1`, the built DoG level is
`gpyr[0][0] − gpyr[0][1] = −1` at every voxel, whereas the claimed
`gpyr[o][l+1] − gpyr[o][l]` equals `+1`. -/
theorem C2_counterexample :
    (build_dog (fun _ s _ _ _ => if s = 0 then 0 else 1)
        (fun _ _ _ _ => 0) 0 0 0 0) (0, 0) 0 0 0 = -1 ∧
    ((fun (_ : ℤ) (s : ℤ) (_ _ _ : ℤ) => if s = 0 then (0 : ℝ) else 1)
        0 1 0 0 0 -
     (fun (_ : ℤ) (s : ℤ) (_ _ _ : ℤ) => if s = 0 then (0 : ℝ) else 1)
        0 0 0 0 0) = 1 := by
  have hmem : ((0 : ℤ), (0 : ℤ)) ∈ pyrIndices 0 0 0 0 := by
    refine List.mem_flatMap.mpr ⟨0, mem_intRange.mpr ⟨le_refl 0, le_refl 0⟩, ?_⟩
    exact List.mem_map.mpr ⟨0, mem_intRange.mpr ⟨le_refl 0, le_refl 0⟩, rfl⟩
  have key := foldl_update_eval
    (fun os : ℤ × ℤ =>
      im_subtract
        ((fun (_ : ℤ) (s : ℤ) (_ _ _ : ℤ) => if s = 0 then (0 : ℝ) else 1)
          os.1 os.2)
        ((fun (_ : ℤ) (s : ℤ) (_ _ _ : ℤ) => if s = 0 then (0 : ℝ) else 1)
          os.1 (os.2 + 1)))
    (pyrIndices 0 0 0 0) (fun _ _ _ _ => 0) (0, 0) hmem
  constructor
  · have := congrFun (congrFun (congrFun key 0) 0) 0
    simpa [build_dog, im_subtract] using this
  · norm_num

/-- Claim C2 (amended): after build_dog, for every octave `o` in
`[first_octave, last_octave]` and level `l` in `[first_level, last_level]`,
`dog[o][l] = gpyr[o][l] − gpyr[o][l+1]` voxel-wise (the lower-blur Gaussian
level minus the higher-blur one). -/
theorem C2_build_dog_amended (gpyr : ℤ → ℤ → Im3) (dogInit : ℤ × ℤ → Im3)
    (fo lo fl ll o l : ℤ) (ho1 : fo ≤ o) (ho2 : o ≤ lo)
    (hl1 : fl ≤ l) (hl2 : l ≤ ll) (x y z : ℤ) :
    build_dog gpyr dogInit fo lo fl ll (o, l) x y z =
      gpyr o l x y z - gpyr o (l + 1) x y z := by
  have hmem : (o, l) ∈ pyrIndices fo lo fl ll := by
    refine List.mem_flatMap.mpr ⟨o, mem_intRange.mpr ⟨ho1, ho2⟩, ?_⟩
    exact List.mem_map.mpr ⟨l, mem_intRange.mpr ⟨hl1, hl2⟩, rfl⟩
  have key := foldl_update_eval
    (fun os : ℤ × ℤ => im_subtract (gpyr os.1 os.2) (gpyr os.1 (os.2 + 1)))
    (pyrIndices fo lo fl ll) dogInit (o, l) hmem
  have := congrFun (congrFun (congrFun key x) y) z
  simpa [build_dog, im_subtract] using this

/-- Witness for C2's amended theorem at a concrete pyramid: one octave and
one level, `gpyr[0][0] = 2`, `gpyr[0][1] = 5` constant, so `dog[0][0] = -3`. -/
theorem C2_build_dog_amended_witness :
    ((0 : ℤ) ≤ 0 ∧ (0 : ℤ) ≤ 0) ∧
    build_dog (fun _ s _ _ _ => if s = 0 then 2 else 5)
      (fun _ _ _ _ => 0) 0 0 0 0 (0, 0) 0 0 0 =
      (fun (_ : ℤ) (s : ℤ) (_ _ _ : ℤ) => if s = 0 then (2 : ℝ) else 5)
          0 0 0 0 0 -
      (fun (_ : ℤ) (s : ℤ) (_ _ _ : ℤ) => if s = 0 then (2 : ℝ) else 5)
          0 (0 + 1) 0 0 0 :=
  ⟨⟨le_refl 0, le_refl 0⟩,
    C2_build_dog_amended (fun _ s _ _ _ => if s = 0 then 2 else 5)
      (fun _ _ _ _ => 0) 0 0 0 0 0 0 (le_refl 0) (le_refl 0)
      (le_refl 0) (le_refl 0) 0 0 0⟩

/-! ## C9: refine_keypoints (sift.c lines 1110-1296)

Per keypoint, up to 5 iterations of parabolic interpolation; after each step
the continuous coordinates are clamped to `[1, n-2-DBL_EPSILON]` per axis and
the scale to the neighboring levels' scales, and the integer indices are
re-computed as floors.  The Lean model evaluates the parabolic quotient with
total real division (`x/0 = 0`); in C a zero denominator yields an
infinity/NaN offset instead, but the clamp step makes the invariant under
study independent of the offset's value. -/

/-- `SIFT3D_MAX(SIFT3D_MIN(v, hi), lo)`. -/
noncomputable def clampR (v lo hi : ℝ) : ℝ := max (min v hi) lo

/-- Mutable per-keypoint state of the refinement loop. -/
structure RefState where
  x : ℤ
  y : ℤ
  z : ℤ
  xd : ℝ
  yd : ℝ
  zd : ℝ
  sd : ℝ

/-- One iteration of the `refine_keypoints` loop body (PARABOLA branch):
parabolic offsets, clamped coordinate update, floor re-indexing. -/
noncomputable def refineStep (prev cur next : Im3) (nx ny nz : ℤ)
    (sPrev sNext : ℝ) (st : RefState) : RefState :=
  let x := st.x
  let y := st.y
  let z := st.z
  let xmax : ℝ := (nx : ℝ) - 2 - dblEps
  let ymax : ℝ := (ny : ℝ) - 2 - dblEps
  let zmax : ℝ := (nz : ℝ) - 2 - dblEps
  let offX := -0.5 * (cur (x+1) y z - cur (x-1) y z) /
    (cur (x+1) y z - cur (x-1) y z + 2 * cur x y z)
  let offY := -0.5 * (cur x (y+1) z - cur x (y-1) z) /
    (cur x (y+1) z - cur x (y-1) z + 2 * cur x y z)
  let offZ := -0.5 * (cur x y (z+1) - cur x y (z-1)) /
    (cur x y (z+1) - cur x y (z-1) + 2 * cur x y z)
  let offS := -0.5 * (next x y z - prev x y z) /
    (next x y z - prev x y z + 2 * cur x y z)
  let xd := clampR (st.xd + offX) 1 xmax
  let yd := clampR (st.yd + offY) 1 ymax
  let zd := clampR (st.zd + offZ) 1 zmax
  let sd := clampR (st.sd + offS) sPrev sNext
  ⟨⌊xd⌋, ⌊yd⌋, ⌊zd⌋, xd, yd, zd, sd⟩

/-- The refinement loop: at most `fuel` iterations, stopping early when the
integer voxel indices do not change. -/
noncomputable def refineLoop (prev cur next : Im3) (nx ny nz : ℤ)
    (sPrev sNext : ℝ) : ℕ → RefState → RefState
  | 0, st => st
  | fuel + 1, st =>
    let st2 := refineStep prev cur next nx ny nz sPrev sNext st
    if st2.x = st.x ∧ st2.y = st.y ∧ st2.z = st.z then st2
    else refineLoop prev cur next nx ny nz sPrev sNext fuel st2

/-- refine_keypoints, per keypoint: starts from the detected integer voxel
`(xi, yi, zi)` at continuous position `(xi+0.5, yi+0.5, zi+0.5)` and scale
`sCur = cur->s`, and runs up to 5 refinement iterations. -/
noncomputable def refine_keypoint (prev cur next : Im3) (nx ny nz : ℤ)
    (sPrev sCur sNext : ℝ) (xi yi zi : ℤ) : RefState :=
  refineLoop prev cur next nx ny nz sPrev sNext 5
    ⟨xi, yi, zi, (xi : ℝ) + 0.5, (yi : ℝ) + 0.5, (zi : ℝ) + 0.5, sCur⟩

/-- Bounds established by one clamped coordinate update. -/
theorem floor_clampR_bounds (v : ℝ) (n : ℤ) (hn : 3 ≤ n) :
    1 ≤ ⌊clampR v 1 ((n : ℝ) - 2 - dblEps)⌋ ∧
    ⌊clampR v 1 ((n : ℝ) - 2 - dblEps)⌋ ≤ n - 2 := by
  constructor
  · refine Int.le_floor.mpr ?_
    simp only [clampR, Int.cast_one]
    exact le_max_right _ _
  · have h1 : clampR v 1 ((n : ℝ) - 2 - dblEps) ≤ (n : ℝ) - 2 := by
      simp only [clampR]
      have hmax : ((n : ℝ) - 2 - dblEps) ≤ (n : ℝ) - 2 := by
        have : (0 : ℝ) < dblEps := by norm_num [dblEps]
        linarith
    -- max (min v hi) 1 ≤ n - 2 since both min v hi ≤ hi ≤ n-2 and 1 ≤ n-2
      refine max_le (le_trans (min_le_right _ _) hmax) ?_
      have : (3 : ℝ) ≤ (n : ℝ) := by exact_mod_cast hn
      linarith
    calc ⌊clampR v 1 ((n : ℝ) - 2 - dblEps)⌋
        ≤ ⌊((n : ℝ) - 2)⌋ := Int.floor_le_floor h1
      _ = n - 2 := by
          rw [show ((n : ℝ) - 2) = ((n - 2 : ℤ) : ℝ) by push_cast; ring]
          exact Int.floor_intCast _

/-- The post-state invariant established by every refinement iteration. -/
def refInv (nx ny nz : ℤ) (sPrev sNext : ℝ) (st : RefState) : Prop :=
  1 ≤ st.x ∧ st.x ≤ nx - 2 ∧ 1 ≤ st.y ∧ st.y ≤ ny - 2 ∧
  1 ≤ st.z ∧ st.z ≤ nz - 2 ∧ sPrev ≤ st.sd ∧ st.sd ≤ sNext

/-- Every refinement step establishes the invariant, whatever the incoming
state. -/
theorem refineStep_inv (prev cur next : Im3) (nx ny nz : ℤ)
    (sPrev sNext : ℝ) (st : RefState) (hx : 3 ≤ nx) (hy : 3 ≤ ny)
    (hz : 3 ≤ nz) (hs : sPrev ≤ sNext) :
    refInv nx ny nz sPrev sNext
      (refineStep prev cur next nx ny nz sPrev sNext st) := by
  simp only [refineStep, refInv, clampR]
  exact ⟨(floor_clampR_bounds _ nx hx).1, (floor_clampR_bounds _ nx hx).2,
    (floor_clampR_bounds _ ny hy).1, (floor_clampR_bounds _ ny hy).2,
    (floor_clampR_bounds _ nz hz).1, (floor_clampR_bounds _ nz hz).2,
    le_max_right _ _, max_le (min_le_right _ _) hs⟩

/-- The loop preserves the invariant. -/
theorem refineLoop_inv (prev cur next : Im3) (nx ny nz : ℤ)
    (sPrev sNext : ℝ) (hx : 3 ≤ nx) (hy : 3 ≤ ny) (hz : 3 ≤ nz)
    (hs : sPrev ≤ sNext) (fuel : ℕ) (st : RefState)
    (h : refInv nx ny nz sPrev sNext st) :
    refInv nx ny nz sPrev sNext
      (refineLoop prev cur next nx ny nz sPrev sNext fuel st) := by
  induction fuel generalizing st with
  | zero => exact h
  | succ n ih =>
    rw [refineLoop]
    split
    · exact refineStep_inv prev cur next nx ny nz sPrev sNext st hx hy hz hs
    · exact ih _ (refineStep_inv prev cur next nx ny nz sPrev sNext st hx hy hz hs)

/-- Claim C9: for every keypoint after refinement (any DoG data, any initial
interior voxel), the integer indices satisfy `1 ≤ xi ≤ nx−2` (analogously
for y, z) and the refined scale satisfies `σ(prev) ≤ sd ≤ σ(next)`, the
per-iteration behavior being: clamp `xd` to `[1, nx−2−ε]` (y, z analogous),
clamp `sd` to the neighboring levels' scales, and re-index by floors. -/
theorem C9_refine_keypoint_bounds (prev cur next : Im3) (nx ny nz : ℤ)
    (sPrev sCur sNext : ℝ) (xi yi zi : ℤ)
    (hxi : 1 ≤ xi ∧ xi ≤ nx - 2) (hyi : 1 ≤ yi ∧ yi ≤ ny - 2)
    (hzi : 1 ≤ zi ∧ zi ≤ nz - 2) (hs : sPrev ≤ sNext) :
    refInv nx ny nz sPrev sNext
      (refine_keypoint prev cur next nx ny nz sPrev sCur sNext xi yi zi) := by
  have hx : 3 ≤ nx := by omega
  have hy : 3 ≤ ny := by omega
  have hz : 3 ≤ nz := by omega
  rw [refine_keypoint, refineLoop]
  split
  · exact refineStep_inv prev cur next nx ny nz sPrev sNext _ hx hy hz hs
  · exact refineLoop_inv prev cur next nx ny nz sPrev sNext hx hy hz hs _ _
      (refineStep_inv prev cur next nx ny nz sPrev sNext _ hx hy hz hs)

/-- Witness for C9 at a concrete keypoint: constant zero DoG levels of
dimensions 4×4×4, initial voxel (1,1,1), scales 1 ≤ 2 ≤ 3. -/
theorem C9_refine_keypoint_bounds_witness :
    (((1 : ℤ) ≤ 1 ∧ (1 : ℤ) ≤ 4 - 2) ∧ ((1 : ℝ) ≤ 3)) ∧
    refInv 4 4 4 1 3
      (refine_keypoint (fun _ _ _ => 0) (fun _ _ _ => 0) (fun _ _ _ => 0)
        4 4 4 1 2 3 1 1 1) :=
  ⟨⟨⟨le_refl 1, by norm_num⟩, by norm_num⟩,
    C9_refine_keypoint_bounds (fun _ _ _ => 0) (fun _ _ _ => 0)
      (fun _ _ _ => 0) 4 4 4 1 2 3 1 1 1 ⟨le_refl 1, by norm_num⟩
      ⟨le_refl 1, by norm_num⟩ ⟨le_refl 1, by norm_num⟩ (by norm_num)⟩

/-! ## C4: detect_extrema (sift.c lines 983-1108, default non-CUBOID build)

The default `CMP_NEIGHBORS` compares the center value only against the 6
face-neighbors of the level it is applied to, plus that level's center voxel
unless `IGNORESELF`; it is applied to the previous, current and next scale
levels (self ignored only in the current one), so 6 + 7 + 7 = 20 voxels are
compared in total. -/

/-- Raster order of `SIFT3D_IM_LOOP_START` over a whole level.  Modelled
from the spec: the loop macro lives in macros.h (not in sift.c); the spec
describes it as an iterator over all `(x, y, z)`; the fold below is
order-insensitive (a running maximum). -/
def voxList (nx ny nz : ℤ) : List (ℤ × ℤ × ℤ) :=
  (intRange 0 (nz - 1)).flatMap fun z =>
    (intRange 0 (ny - 1)).flatMap fun y =>
      (intRange 0 (nx - 1)).map fun x => (x, y, z)

/-- The per-level maximum absolute DoG value
(`dogmax` accumulation in detect_extrema). -/
noncomputable def imMaxAbs (im : Im3) (nx ny nz : ℤ) : ℝ :=
  (voxList nx ny nz).foldl (fun m v => max m |im v.1 v.2.1 v.2.2|) 0

/-- CMP_NEIGHBORS (default, non-CUBOID variant): compare `val` against the
6 face-neighbors of `(x,y,z)` in `im`, and against the center voxel itself
unless `ignoreSelf`. -/
def cmpNeighbors (im : Im3) (x y z : ℤ) (cmp : ℝ → ℝ → Prop)
    (ignoreSelf : Prop) (val : ℝ) : Prop :=
  cmp val (im (x + 1) y z) ∧ cmp val (im (x - 1) y z) ∧
  cmp val (im x (y + 1) z) ∧ cmp val (im x (y - 1) z) ∧
  cmp val (im x y (z - 1)) ∧ cmp val (im x y (z + 1)) ∧
  (cmp val (im x y z) ∨ ignoreSelf)

/-- detect_extrema acceptance of the voxel `(x,y,z)` of the current DoG
level: the peak threshold (`peak_thresh * dogmax` with `dogmax` the
level-wise maximum absolute value), and strict comparison against the 20
compared voxels, in the code's form. -/
noncomputable def detectAccept (prev cur next : Im3) (peakThresh : ℝ)
    (nx ny nz : ℤ) (x y z : ℤ) : Prop :=
  let pcur := cur x y z
  let pt := peakThresh * imMaxAbs cur nx ny nz
  (pcur > pt ∨ pcur < -pt) ∧
  ((cmpNeighbors prev x y z (· > ·) False pcur ∧
    cmpNeighbors cur x y z (· > ·) True pcur ∧
    cmpNeighbors next x y z (· > ·) False pcur) ∨
   (cmpNeighbors prev x y z (· < ·) False pcur ∧
    cmpNeighbors cur x y z (· < ·) True pcur ∧
    cmpNeighbors next x y z (· < ·) False pcur))

/-- The 6 face-neighbor offsets. -/
def faceOffsets : List (ℤ × ℤ × ℤ) :=
  [(1, 0, 0), (-1, 0, 0), (0, 1, 0), (0, -1, 0), (0, 0, -1), (0, 0, 1)]

/-- Center plus the 6 face-neighbor offsets (the 7 voxels the code compares
against in each neighboring scale level). -/
def face7Offsets : List (ℤ × ℤ × ℤ) := (0, 0, 0) :: faceOffsets

/-- The claim's comparison set for the neighboring scale levels:
`(x±{0,1}, y±{0,1}, z±{0,1})` with 18 voxels over the two levels, i.e. the
9 offsets `(dx, dy, 0)`, `dx, dy ∈ {−1,0,1}`, per neighboring level.
This definition follows the claim's words, for comparison with the code. -/
def offsets9 : List (ℤ × ℤ × ℤ) :=
  [(-1, -1, 0), (0, -1, 0), (1, -1, 0),
   (-1, 0, 0), (0, 0, 0), (1, 0, 0),
   (-1, 1, 0), (0, 1, 0), (1, 1, 0)]

/-- The claim's acceptance predicate, as stated: peak threshold on `|p|`,
and strict domination (in either direction) of the 6 same-level
face-neighbors and of 18 voxels (9 per neighboring scale level). -/
noncomputable def detectAcceptClaim (prev cur next : Im3) (peakThresh : ℝ)
    (nx ny nz : ℤ) (x y z : ℤ) : Prop :=
  let p := cur x y z
  |p| > peakThresh * imMaxAbs cur nx ny nz ∧
  (((∀ o ∈ faceOffsets, p > cur (x + o.1) (y + o.2.1) (z + o.2.2)) ∧
    (∀ o ∈ offsets9, p > prev (x + o.1) (y + o.2.1) (z + o.2.2)) ∧
    (∀ o ∈ offsets9, p > next (x + o.1) (y + o.2.1) (z + o.2.2))) ∨
   ((∀ o ∈ faceOffsets, p < cur (x + o.1) (y + o.2.1) (z + o.2.2)) ∧
    (∀ o ∈ offsets9, p < prev (x + o.1) (y + o.2.1) (z + o.2.2)) ∧
    (∀ o ∈ offsets9, p < next (x + o.1) (y + o.2.1) (z + o.2.2))))

/-- A bounded running maximum stays bounded. -/
theorem foldl_max_le {α : Type} (l : List α) (f : α → ℝ) (init c : ℝ)
    (h0 : init ≤ c) (hf : ∀ v ∈ l, f v ≤ c) :
    l.foldl (fun m v => max m (f v)) init ≤ c := by
  induction l generalizing init with
  | nil => exact h0
  | cons a rest ih =>
    exact ih _ (max_le h0 (hf a (List.mem_cons_self a rest)))
      (fun v hv => hf v (List.mem_cons_of_mem a hv))

/-- The concrete previous DoG level of the C4 counterexample: value 20 at
voxel (2,2,1), zero elsewhere. -/
noncomputable def c4Prev : Im3 :=
  fun x y z => if x = 2 ∧ y = 2 ∧ z = 1 then 20 else 0

/-- The concrete current DoG level of the C4 counterexample: value 10 at
voxel (1,1,1), zero elsewhere. -/
noncomputable def c4Cur : Im3 :=
  fun x y z => if x = 1 ∧ y = 1 ∧ z = 1 then 10 else 0

/-- The concrete next DoG level of the C4 counterexample: zero. -/
noncomputable def c4Next : Im3 := fun _ _ _ => 0

/-- Counterexample to claim C4 as stated: on 4×4×4 levels with
`peak_thresh = 0.03`, the interior voxel (1,1,1) (value 10, all 20 compared
voxels zero) is accepted by the code, but the claim's predicate rejects it,
because the previous level holds 20 at the diagonal offset `(+1,+1,0)` —
a voxel the code never compares. -/
theorem C4_counterexample :
    detectAccept c4Prev c4Cur c4Next 0.03 4 4 4 1 1 1 ∧
    ¬ detectAcceptClaim c4Prev c4Cur c4Next 0.03 4 4 4 1 1 1 := by
  have hmax : imMaxAbs c4Cur 4 4 4 ≤ 10 := by
    refine foldl_max_le _ _ _ _ (by norm_num) ?_
    intro v _
    simp only [c4Cur]
    split <;> norm_num
  have hmax0 : (0 : ℝ) ≤ imMaxAbs c4Cur 4 4 4 := by
    have : ∀ (l : List (ℤ × ℤ × ℤ)) (init : ℝ), init ≤
        l.foldl (fun m v => max m |c4Cur v.1 v.2.1 v.2.2|) init := by
      intro l
      induction l with
      | nil => intro init; exact le_refl _
      | cons a rest ih =>
        intro init
        exact le_trans (le_max_left _ _) (ih _)
    exact this _ 0
  constructor
  · refine ⟨Or.inl ?_, Or.inl ⟨?_, ?_, ?_⟩⟩
    · show (10 : ℝ) > 0.03 * imMaxAbs c4Cur 4 4 4
      nlinarith
    · simp only [cmpNeighbors, c4Prev, c4Cur]
      norm_num
    · simp only [cmpNeighbors, c4Cur]
      norm_num
    · simp only [cmpNeighbors, c4Cur, c4Next]
      norm_num
  · intro h
    rcases h.2 with hgt | hlt
    · have := hgt.2.1 (1, 1, 0) (by simp [offsets9])
      simp only [c4Prev, c4Cur] at this
      norm_num at this
    · have := hlt.1 (1, 0, 0) (by simp [faceOffsets])
      simp only [c4Cur] at this
      norm_num at this

/-- Claim C4 (amended): an interior voxel `p` of a DoG level is accepted as a
keypoint candidate iff `|p| > peak_thresh · max|DoG[o][s]|` and `p` strictly
dominates (in one fixed direction) its 6 face-neighbors in its own level and
the center voxel plus the 6 face-neighbors (7 voxels) in each of the two
neighboring scale levels, the center voxel of the own level being excluded. -/
theorem C4_detect_extrema_amended (prev cur next : Im3) (peakThresh : ℝ)
    (nx ny nz x y z : ℤ)
    (hx : 1 ≤ x ∧ x ≤ nx - 2) (hy : 1 ≤ y ∧ y ≤ ny - 2)
    (hz : 1 ≤ z ∧ z ≤ nz - 2) :
    detectAccept prev cur next peakThresh nx ny nz x y z ↔
    (|cur x y z| > peakThresh * imMaxAbs cur nx ny nz ∧
     (((∀ o ∈ faceOffsets,
          cur x y z > cur (x + o.1) (y + o.2.1) (z + o.2.2)) ∧
       (∀ o ∈ face7Offsets,
          cur x y z > prev (x + o.1) (y + o.2.1) (z + o.2.2)) ∧
       (∀ o ∈ face7Offsets,
          cur x y z > next (x + o.1) (y + o.2.1) (z + o.2.2))) ∨
      ((∀ o ∈ faceOffsets,
          cur x y z < cur (x + o.1) (y + o.2.1) (z + o.2.2)) ∧
       (∀ o ∈ face7Offsets,
          cur x y z < prev (x + o.1) (y + o.2.1) (z + o.2.2)) ∧
       (∀ o ∈ face7Offsets,
          cur x y z < next (x + o.1) (y + o.2.1) (z + o.2.2))))) := by
  have habs : peakThresh * imMaxAbs cur nx ny nz < |cur x y z| ↔
      (cur x y z > peakThresh * imMaxAbs cur nx ny nz ∨
       cur x y z < -(peakThresh * imMaxAbs cur nx ny nz)) := by
    rw [lt_abs]
    constructor
    · rintro (h | h)
      · exact Or.inl h
      · exact Or.inr (by linarith)
    · rintro (h | h)
      · exact Or.inl h
      · exact Or.inr (by linarith)
  simp only [detectAccept, cmpNeighbors, faceOffsets, face7Offsets,
    List.forall_mem_cons, gt_iff_lt, habs, add_zero, and_true, or_false,
    or_true]
  have nilp : ∀ {q : ℤ × ℤ × ℤ → Prop} (a : ℤ × ℤ × ℤ),
      a ∈ ([] : List (ℤ × ℤ × ℤ)) → q a :=
    fun a ha => absurd ha (List.not_mem_nil a)
  constructor
  · rintro ⟨h1, hGL⟩
    refine ⟨h1, ?_⟩
    rcases hGL with ⟨⟨p1, p2, p3, p4, p5, p6, p7⟩, ⟨c1, c2, c3, c4, c5, c6⟩,
        ⟨n1, n2, n3, n4, n5, n6, n7⟩⟩ |
      ⟨⟨p1, p2, p3, p4, p5, p6, p7⟩, ⟨c1, c2, c3, c4, c5, c6⟩,
        ⟨n1, n2, n3, n4, n5, n6, n7⟩⟩
    · exact Or.inl ⟨⟨c1, c2, c3, c4, c5, ⟨c6, nilp⟩⟩,
        ⟨p7, p1, p2, p3, p4, p5, ⟨p6, nilp⟩⟩,
        ⟨n7, n1, n2, n3, n4, n5, ⟨n6, nilp⟩⟩⟩
    · exact Or.inr ⟨⟨c1, c2, c3, c4, c5, ⟨c6, nilp⟩⟩,
        ⟨p7, p1, p2, p3, p4, p5, ⟨p6, nilp⟩⟩,
        ⟨n7, n1, n2, n3, n4, n5, ⟨n6, nilp⟩⟩⟩
  · rintro ⟨h1, hGL⟩
    refine ⟨h1, ?_⟩
    rcases hGL with ⟨⟨c1, c2, c3, c4, c5, c6, -⟩,
        ⟨p7, p1, p2, p3, p4, p5, p6, -⟩, ⟨n7, n1, n2, n3, n4, n5, n6, -⟩⟩ |
      ⟨⟨c1, c2, c3, c4, c5, c6, -⟩,
        ⟨p7, p1, p2, p3, p4, p5, p6, -⟩, ⟨n7, n1, n2, n3, n4, n5, n6, -⟩⟩
    · exact Or.inl ⟨⟨p1, p2, p3, p4, p5, p6, p7⟩, ⟨c1, c2, c3, c4, c5, c6⟩,
        ⟨n1, n2, n3, n4, n5, n6, n7⟩⟩
    · exact Or.inr ⟨⟨p1, p2, p3, p4, p5, p6, p7⟩, ⟨c1, c2, c3, c4, c5, c6⟩,
        ⟨n1, n2, n3, n4, n5, n6, n7⟩⟩

/-- Witness for C4's amended theorem at the concrete interior voxel (1,1,1)
of 4×4×4 levels. -/
theorem C4_detect_extrema_amended_witness :
    (((1 : ℤ) ≤ 1 ∧ (1 : ℤ) ≤ 4 - 2) ∧ ((1 : ℤ) ≤ 1 ∧ (1 : ℤ) ≤ 4 - 2) ∧
      ((1 : ℤ) ≤ 1 ∧ (1 : ℤ) ≤ 4 - 2)) ∧
    (detectAccept c4Prev c4Cur c4Next 0.03 4 4 4 1 1 1 ↔
    (|c4Cur 1 1 1| > 0.03 * imMaxAbs c4Cur 4 4 4 ∧
     (((∀ o ∈ faceOffsets,
          c4Cur 1 1 1 > c4Cur (1 + o.1) (1 + o.2.1) (1 + o.2.2)) ∧
       (∀ o ∈ face7Offsets,
          c4Cur 1 1 1 > c4Prev (1 + o.1) (1 + o.2.1) (1 + o.2.2)) ∧
       (∀ o ∈ face7Offsets,
          c4Cur 1 1 1 > c4Next (1 + o.1) (1 + o.2.1) (1 + o.2.2))) ∨
      ((∀ o ∈ faceOffsets,
          c4Cur 1 1 1 < c4Cur (1 + o.1) (1 + o.2.1) (1 + o.2.2)) ∧
       (∀ o ∈ face7Offsets,
          c4Cur 1 1 1 < c4Prev (1 + o.1) (1 + o.2.1) (1 + o.2.2)) ∧
       (∀ o ∈ face7Offsets,
          c4Cur 1 1 1 < c4Next (1 + o.1) (1 + o.2.1) (1 + o.2.2)))))) :=
  ⟨⟨⟨le_refl 1, by norm_num⟩, ⟨le_refl 1, by norm_num⟩,
    ⟨le_refl 1, by norm_num⟩⟩,
   C4_detect_extrema_amended c4Prev c4Cur c4Next 0.03 4 4 4 1 1 1
     ⟨le_refl 1, by norm_num⟩ ⟨le_refl 1, by norm_num⟩
     ⟨le_refl 1, by norm_num⟩⟩

/-! ## C5 and C10: SIFT3D_nn_match (sift.c lines 2483-2580)

A descriptor is modelled as the flattened list of its
`DESC_NUM_TOTAL_HIST × HIST_NUMEL = 768` histogram bins; the triple loop of
the SSD computation is the sum of squared differences over all bins.  The
best/second-best tracking starts from `1e30` and the match is rejected when
`ssd_best / ssd_nearest > nn_thresh²`.  In the accept branch the C recovers
the match index as the pointer difference `desc_best - d2->buf`; when no
descriptor ever beat the `1e30` initial value, `desc_best` is still `NULL`
and that difference is an out-of-range value that is never a valid index —
modelled here as `-2`. -/

/-- A descriptor: the flattened list of its 768 histogram bins. -/
def Descrip : Type := List ℝ

/-- The sum of squared bin differences of two descriptors
(the `ssd` accumulation loop). -/
noncomputable def ssdDesc (a b : Descrip) : ℝ :=
  (List.zipWith (fun u v => (u - v) * (u - v)) a b).sum

/-- State of the best/second-best search:
`ssd_best`, `ssd_nearest`, and the index of `desc_best` (`none` = NULL). -/
structure MatchState where
  ssdBest : ℝ
  ssdNearest : ℝ
  best : Option ℕ

/-- One step of the linear search over `d2`. -/
noncomputable def matchStep (a : Descrip) (st : MatchState)
    (jd : ℕ × Descrip) : MatchState :=
  let ssd := ssdDesc a jd.2
  if ssd < st.ssdBest then ⟨ssd, st.ssdBest, some jd.1⟩
  else ⟨st.ssdBest, min st.ssdNearest ssd, st.best⟩

/-- The completed linear search for one descriptor of `d1`. -/
noncomputable def matchSearch (d2 : List Descrip) (a : Descrip) : MatchState :=
  d2.enum.foldl (matchStep a) ⟨1e30, 1e30, none⟩

/-- The match entry recorded for one descriptor of `d1`: `-1` when the ratio
test rejects, else the index of the best descriptor (`-2` standing for the
never-valid pointer difference from a NULL `desc_best`). -/
noncomputable def nnMatchOne (d2 : List Descrip) (nn_thresh : ℝ)
    (a : Descrip) : ℤ :=
  let st := matchSearch d2 a
  if st.ssdBest / st.ssdNearest > nn_thresh * nn_thresh then -1
  else
    match st.best with
    | some j => (j : ℤ)
    | none => -2

/-- SIFT3D_nn_match: the dense match array, one entry per descriptor of
`d1`; entries are initialized to `-1` and overwritten only by an accepted
match. -/
noncomputable def SIFT3D_nn_match (d1 d2 : List Descrip) (nn_thresh : ℝ) :
    List ℤ :=
  d1.map (nnMatchOne d2 nn_thresh)

/-- ssd of two cons cells. -/
theorem ssdDesc_cons (u v : ℝ) (a b : Descrip) :
    ssdDesc (u :: a) (v :: b) = (u - v) * (u - v) + ssdDesc a b := by
  simp [ssdDesc, List.zipWith]

/-- ssd of two equal-constant tails is zero. -/
theorem ssdDesc_replicate (n : ℕ) (c : ℝ) :
    ssdDesc (List.replicate n c) (List.replicate n c) = 0 := by
  induction n with
  | zero => simp [ssdDesc]
  | succ m ih =>
    simp only [List.replicate_succ]
    rw [ssdDesc_cons, ih]
    ring

/-! ### C10: singleton second set -/

/-- Claim C10 (amended): if `d2` holds exactly one descriptor `b`, then for
every `a` whose squared distance to `b` is below `min(nn_thresh², 1) · 1e30`
(equivalently: below `nn_thresh² · 1e30` and below the `1e30` initial
value), a match to index 0 is recorded, and the second-best squared distance
still holds its `1e30` initial value, so no second neighbor can cause a
rejection. -/
theorem C10_nn_match_singleton (a b : Descrip) (t : ℝ)
    (h1 : ssdDesc a b < t * t * 1e30) (h2 : ssdDesc a b < 1e30) :
    nnMatchOne [b] t a = 0 ∧ (matchSearch [b] a).ssdNearest = 1e30 := by
  have hsearch : matchSearch [b] a = ⟨ssdDesc a b, 1e30, some 0⟩ := by
    simp [matchSearch, List.enum, matchStep, h2]
  constructor
  · rw [nnMatchOne, hsearch]
    have hratio : ¬ (ssdDesc a b / 1e30 > t * t) := by
      rw [not_lt, div_le_iff (by norm_num : (0:ℝ) < 1e30)]
      linarith
    simp [hratio]
  · rw [hsearch]

/-- Witness for C10 at concrete descriptors: `a` all-zero, `b` with one bin
equal to 4, `nn_thresh = 1/2`; the squared distance is 16. -/
theorem C10_nn_match_singleton_witness :
    (ssdDesc (List.replicate 768 (0:ℝ)) (4 :: List.replicate 767 (0:ℝ)) <
        (1/2) * (1/2) * 1e30 ∧
     ssdDesc (List.replicate 768 (0:ℝ)) (4 :: List.replicate 767 (0:ℝ)) <
        1e30) ∧
    nnMatchOne [4 :: List.replicate 767 (0:ℝ)] (1/2)
        (List.replicate 768 (0:ℝ)) = 0 ∧
    (matchSearch [4 :: List.replicate 767 (0:ℝ)]
        (List.replicate 768 (0:ℝ))).ssdNearest = 1e30 := by
  have hssd : ssdDesc (List.replicate 768 (0:ℝ))
      (4 :: List.replicate 767 (0:ℝ)) = 16 := by
    rw [show (768 : ℕ) = 767 + 1 from rfl]
    rw [show List.replicate (767+1) (0:ℝ) = 0 :: List.replicate 767 0 from
      List.replicate_succ 0 767]
    rw [ssdDesc_cons, ssdDesc_replicate]
    norm_num
  have h1 : ssdDesc (List.replicate 768 (0:ℝ))
      (4 :: List.replicate 767 (0:ℝ)) < (1/2) * (1/2) * 1e30 := by
    rw [hssd]; norm_num
  have h2 : ssdDesc (List.replicate 768 (0:ℝ))
      (4 :: List.replicate 767 (0:ℝ)) < 1e30 := by
    rw [hssd]; norm_num
  exact ⟨⟨h1, h2⟩, C10_nn_match_singleton _ _ _ h1 h2⟩

/-- Counterexample to claim C10 as stated: with `nn_thresh = 3` and a
squared distance of `4e30 < nn_thresh² · 1e30 = 9e30`, the `1e30` initial
best is never beaten, `desc_best` stays NULL, and no match to index 0 is
recorded (the C computes an out-of-range NULL pointer difference). -/
theorem C10_counterexample :
    ssdDesc [(2e15 : ℝ)] [0] < 3 * 3 * 1e30 ∧
    nnMatchOne [[(0 : ℝ)]] 3 [(2e15 : ℝ)] ≠ 0 := by
  have hssd : ssdDesc [(2e15 : ℝ)] [0] = 4e30 := by
    simp [ssdDesc]
    norm_num
  constructor
  · rw [hssd]; norm_num
  · have hsearch : matchSearch [[(0:ℝ)]] [(2e15 : ℝ)] =
        ⟨1e30, 1e30, none⟩ := by
      have hlt : ¬ (ssdDesc [(2e15 : ℝ)] [0] < 1e30) := by
        rw [hssd]; norm_num
      have hmin : min (1e30 : ℝ) (ssdDesc [(2e15 : ℝ)] [0]) = 1e30 := by
        rw [hssd]; norm_num
      simp [matchSearch, List.enum, matchStep, hlt, hmin]
    rw [nnMatchOne, hsearch]
    norm_num

/-! ### C5: the ratio test accepts at equality -/

/-- Counterexample to claim C5 as stated: with `nn_thresh = 1/2` and SSDs
1 (best) and 4 (second-best), the ratio equals `nn_thresh²` exactly; the
code records the match (its rejection test is strict `>`), while the
claimed strict `<` acceptance condition is false. -/
theorem C5_counterexample :
    SIFT3D_nn_match [List.replicate 768 (0:ℝ)]
      [1 :: List.replicate 767 (0:ℝ), 2 :: List.replicate 767 (0:ℝ)]
      (1/2) = [0] ∧
    ssdDesc (List.replicate 768 (0:ℝ)) (1 :: List.replicate 767 (0:ℝ)) = 1 ∧
    ssdDesc (List.replicate 768 (0:ℝ)) (2 :: List.replicate 767 (0:ℝ)) = 4 ∧
    ¬ (ssdDesc (List.replicate 768 (0:ℝ)) (1 :: List.replicate 767 (0:ℝ)) /
       ssdDesc (List.replicate 768 (0:ℝ)) (2 :: List.replicate 767 (0:ℝ)) <
       (1/2) * (1/2)) := by
  have hrep : List.replicate 768 (0:ℝ) = 0 :: List.replicate 767 0 :=
    List.replicate_succ 0 767
  have h1 : ssdDesc (List.replicate 768 (0:ℝ))
      (1 :: List.replicate 767 (0:ℝ)) = 1 := by
    rw [hrep, ssdDesc_cons, ssdDesc_replicate]
    norm_num
  have h4 : ssdDesc (List.replicate 768 (0:ℝ))
      (2 :: List.replicate 767 (0:ℝ)) = 4 := by
    rw [hrep, ssdDesc_cons, ssdDesc_replicate]
    norm_num
  refine ⟨?_, h1, h4, ?_⟩
  · have hsearch : matchSearch
        [1 :: List.replicate 767 (0:ℝ), 2 :: List.replicate 767 (0:ℝ)]
        (List.replicate 768 (0:ℝ)) = ⟨1, 4, some 0⟩ := by
      simp only [matchSearch, List.enum, List.enumFrom, List.foldl_cons,
        List.foldl_nil, matchStep, h1, h4]
      norm_num
    simp only [SIFT3D_nn_match, List.map_cons, List.map_nil, nnMatchOne,
      hsearch]
    norm_num
  · rw [h1, h4]
    norm_num

/-- The pair `(b, s)` consists of the two smallest values of the multiset
`M` (with multiplicity): `M` decomposes as `b`, `s`, and a remainder that
`s` bounds from below. -/
def IsTwoSmallest (M : Multiset ℝ) (b s : ℝ) : Prop :=
  ∃ rest, M = b ::ₘ s ::ₘ rest ∧ b ≤ s ∧ ∀ x ∈ rest, s ≤ x

/-- Inserting a value into a two-smallest pair, in the code's tracking
discipline. -/
theorem isTwoSmallest_insert (M : Multiset ℝ) (b s v : ℝ)
    (h : IsTwoSmallest M b s) :
    IsTwoSmallest (v ::ₘ M) (if v < b then v else b)
      (if v < b then b else min s v) := by
  rcases h with ⟨rest, hM, hbs, hrest⟩
  by_cases hv : v < b
  · simp only [if_pos hv]
    refine ⟨s ::ₘ rest, by rw [hM], hv.le, fun x hx => ?_⟩
    rcases Multiset.mem_cons.mp hx with rfl | hx
    · exact hbs
    · exact hbs.trans (hrest x hx)
  · have hbv : b ≤ v := not_lt.mp hv
    simp only [if_neg hv]
    by_cases hvs : v < s
    · rw [min_eq_right hvs.le]
      refine ⟨s ::ₘ rest, ?_, hbv, fun x hx => ?_⟩
      · rw [hM, Multiset.cons_swap]
      · rcases Multiset.mem_cons.mp hx with rfl | hx
        · exact hvs.le
        · exact hvs.le.trans (hrest x hx)
    · have hsv : s ≤ v := not_lt.mp hvs
      rw [min_eq_left hsv]
      refine ⟨v ::ₘ rest, ?_, hbs, fun x hx => ?_⟩
      · rw [hM, Multiset.cons_swap v b, Multiset.cons_swap v s]
      · rcases Multiset.mem_cons.mp hx with rfl | hx
        · exact hsv
        · exact hrest x hx

/-- The two-smallest pair of a multiset is unique. -/
theorem isTwoSmallest_unique (M : Multiset ℝ) (b s b2 s2 : ℝ)
    (h1 : IsTwoSmallest M b s) (h2 : IsTwoSmallest M b2 s2) :
    b = b2 ∧ s = s2 := by
  rcases h1 with ⟨r1, hM1, hbs1, hr1⟩
  rcases h2 with ⟨r2, hM2, hbs2, hr2⟩
  have hmin1 : ∀ x ∈ M, b ≤ x := by
    rw [hM1]
    intro x hx
    rcases Multiset.mem_cons.mp hx with rfl | hx
    · exact le_refl x
    rcases Multiset.mem_cons.mp hx with rfl | hx
    · exact hbs1
    · exact hbs1.trans (hr1 x hx)
  have hmin2 : ∀ x ∈ M, b2 ≤ x := by
    rw [hM2]
    intro x hx
    rcases Multiset.mem_cons.mp hx with rfl | hx
    · exact le_refl x
    rcases Multiset.mem_cons.mp hx with rfl | hx
    · exact hbs2
    · exact hbs2.trans (hr2 x hx)
  have hmem1 : b ∈ M := by
    rw [hM1]; exact Multiset.mem_cons_self _ _
  have hmem2 : b2 ∈ M := by
    rw [hM2]; exact Multiset.mem_cons_self _ _
  have hbb : b = b2 := le_antisymm (hmin1 b2 hmem2) (hmin2 b hmem1)
  subst hbb
  have he1 : M.erase b = s ::ₘ r1 := by
    rw [hM1, Multiset.erase_cons_head]
  have he2 : M.erase b = s2 ::ₘ r2 := by
    rw [hM2, Multiset.erase_cons_head]
  have hsmin1 : ∀ x ∈ M.erase b, s ≤ x := by
    rw [he1]
    intro x hx
    rcases Multiset.mem_cons.mp hx with rfl | hx
    · exact le_refl x
    · exact hr1 x hx
  have hsmin2 : ∀ x ∈ M.erase b, s2 ≤ x := by
    rw [he2]
    intro x hx
    rcases Multiset.mem_cons.mp hx with rfl | hx
    · exact le_refl x
    · exact hr2 x hx
  have hsmem1 : s ∈ M.erase b := by
    rw [he1]; exact Multiset.mem_cons_self _ _
  have hsmem2 : s2 ∈ M.erase b := by
    rw [he2]; exact Multiset.mem_cons_self _ _
  exact ⟨rfl, le_antisymm (hsmin1 s2 hsmem2) (hsmin2 s hsmem1)⟩

/-- Padding a two-smallest pair with `1e30` sentinels does not change it
when both values are below the sentinel. -/
theorem isTwoSmallest_pad (M : Multiset ℝ) (b s : ℝ)
    (h : IsTwoSmallest M b s) (hb : b ≤ 1e30) (hs : s ≤ 1e30) :
    IsTwoSmallest ((1e30 : ℝ) ::ₘ 1e30 ::ₘ M) b s := by
  have step : ∀ N : Multiset ℝ, IsTwoSmallest N b s →
      IsTwoSmallest ((1e30 : ℝ) ::ₘ N) b s := by
    intro N hN
    have := isTwoSmallest_insert N b s 1e30 hN
    simp only [if_neg (not_lt.mpr hb), min_eq_left hs] at this
    exact this
  exact step _ (step _ h)

/-- The best/second-best fold tracks the two smallest of the seen values
plus the two `1e30` sentinels. -/
theorem matchFold_char (a : Descrip) :
    ∀ (l : List (ℕ × Descrip)) (st : MatchState) (M : Multiset ℝ),
      IsTwoSmallest M st.ssdBest st.ssdNearest →
      IsTwoSmallest (M + ↑(l.map (fun jd => ssdDesc a jd.2)))
        (l.foldl (matchStep a) st).ssdBest
        (l.foldl (matchStep a) st).ssdNearest := by
  intro l
  induction l with
  | nil =>
    intro st M h
    simpa using h
  | cons jd rest ih =>
    intro st M h
    have hstep : IsTwoSmallest (ssdDesc a jd.2 ::ₘ M)
        (matchStep a st jd).ssdBest (matchStep a st jd).ssdNearest := by
      have := isTwoSmallest_insert M st.ssdBest st.ssdNearest
        (ssdDesc a jd.2) h
      by_cases hc : ssdDesc a jd.2 < st.ssdBest
      · simpa [matchStep, hc] using this
      · simpa [matchStep, hc] using this
    have := ih (matchStep a st jd) (ssdDesc a jd.2 ::ₘ M) hstep
    simp only [List.foldl_cons]
    have hM : (ssdDesc a jd.2 ::ₘ M) +
        ↑(rest.map (fun jd => ssdDesc a jd.2)) =
        M + ↑((jd :: rest).map (fun jd => ssdDesc a jd.2)) := by
      simp only [List.map_cons]
      rw [← Multiset.cons_coe, Multiset.add_cons, Multiset.cons_add]
    rw [hM] at this
    exact this

/-- Claim C5 (amended): the output is a dense integer array of length `|A|`
whose unmatched entries are `−1`, and a match for `a` is recorded if and
only if `ssd_best / ssd_second ≤ nn_thresh²` (the code's rejection test is
the strict `>`), where `(ssd_best, ssd_second)` are the two smallest sums
of squared bin differences over all of `B` — provided every SSD is below
the `1e30` sentinel. -/
theorem C5_nn_match_amended (d1 d2 : List Descrip) (t : ℝ) (a : Descrip)
    (b s : ℝ)
    (hts : IsTwoSmallest (↑(d2.map (ssdDesc a))) b s)
    (hall : ∀ x ∈ d2.map (ssdDesc a), x < 1e30) :
    (SIFT3D_nn_match d1 d2 t).length = d1.length ∧
    (nnMatchOne d2 t a ≠ -1 ↔ b / s ≤ t * t) := by
  constructor
  · simp [SIFT3D_nn_match]
  · have hbmem : b ∈ (↑(d2.map (ssdDesc a)) : Multiset ℝ) := by
      rcases hts with ⟨rest, hM, -, -⟩
      rw [hM]
      exact Multiset.mem_cons_self _ _
    have hsmem : s ∈ (↑(d2.map (ssdDesc a)) : Multiset ℝ) := by
      rcases hts with ⟨rest, hM, -, -⟩
      rw [hM]
      exact Multiset.mem_cons.mpr (Or.inr (Multiset.mem_cons_self _ _))
    have hb30 : b < 1e30 := hall b (by exact_mod_cast hbmem)
    have hs30 : s < 1e30 := hall s (by exact_mod_cast hsmem)
    have hpad := isTwoSmallest_pad _ b s hts hb30.le hs30.le
    have hinit : IsTwoSmallest ((1e30 : ℝ) ::ₘ 1e30 ::ₘ 0) 1e30 1e30 :=
      ⟨0, rfl, le_refl _, by simp⟩
    have hfold := matchFold_char a d2.enum ⟨1e30, 1e30, none⟩
      ((1e30 : ℝ) ::ₘ 1e30 ::ₘ 0) hinit
    have hmap : d2.enum.map (fun jd => ssdDesc a jd.2) =
        d2.map (ssdDesc a) := by
      rw [show (fun jd : ℕ × Descrip => ssdDesc a jd.2) =
        (ssdDesc a) ∘ Prod.snd from rfl]
      rw [← List.map_map, List.enum_map_snd]
    rw [hmap] at hfold
    have hM0 : ((1e30 : ℝ) ::ₘ 1e30 ::ₘ 0) + ↑(d2.map (ssdDesc a)) =
        (1e30 : ℝ) ::ₘ 1e30 ::ₘ ↑(d2.map (ssdDesc a)) := by
      rw [Multiset.cons_add, Multiset.cons_add, zero_add]
    rw [hM0] at hfold
    have huniq := isTwoSmallest_unique _ _ _ _ _ hfold hpad
    have hms : matchSearch d2 a =
        d2.enum.foldl (matchStep a) ⟨1e30, 1e30, none⟩ := rfl
    rw [← hms] at huniq
    simp only [nnMatchOne, huniq.1, huniq.2]
    by_cases hacc : b / s > t * t
    · simp only [if_pos hacc]
      constructor
      · intro h
        exact absurd rfl h
      · intro h
        exact absurd hacc (not_lt.mpr h)
    · simp only [if_neg hacc]
      have hle : b / s ≤ t * t := not_lt.mp hacc
      constructor
      · intro _
        exact hle
      · intro _
        cases hbest : (matchSearch d2 a).best with
        | none => norm_num
        | some j =>
          simp only []
          omega

/-- Witness for C5's amended theorem: one query descriptor against two
descriptors at SSDs 1 and 4, `nn_thresh = 1/2`; the ratio equals
`nn_thresh²`, so a match is recorded. -/
theorem C5_nn_match_amended_witness :
    (IsTwoSmallest
        (↑([[(1:ℝ)], [(2:ℝ)]].map (ssdDesc [(0:ℝ)]))) 1 4 ∧
      (∀ x ∈ [[(1:ℝ)], [(2:ℝ)]].map (ssdDesc [(0:ℝ)]), x < 1e30)) ∧
    (SIFT3D_nn_match [[(0:ℝ)]] [[(1:ℝ)], [(2:ℝ)]] (1/2)).length =
      [[(0:ℝ)]].length ∧
    (nnMatchOne [[(1:ℝ)], [(2:ℝ)]] (1/2) [(0:ℝ)] ≠ -1 ↔
      (1 : ℝ) / 4 ≤ (1/2) * (1/2)) := by
  have h1 : ssdDesc [(0:ℝ)] [(1:ℝ)] = 1 := by
    simp [ssdDesc]
  have h4 : ssdDesc [(0:ℝ)] [(2:ℝ)] = 4 := by
    simp [ssdDesc]
    norm_num
  have hmap : [[(1:ℝ)], [(2:ℝ)]].map (ssdDesc [(0:ℝ)]) = [1, 4] := by
    simp [h1, h4]
  have hts : IsTwoSmallest
      (↑([[(1:ℝ)], [(2:ℝ)]].map (ssdDesc [(0:ℝ)]))) 1 4 := by
    rw [hmap]
    exact ⟨0, rfl, by norm_num, by simp⟩
  have hall : ∀ x ∈ [[(1:ℝ)], [(2:ℝ)]].map (ssdDesc [(0:ℝ)]), x < 1e30 := by
    rw [hmap]
    intro x hx
    rcases List.mem_cons.mp hx with rfl | hx
    · norm_num
    rcases List.mem_cons.mp hx with rfl | hx
    · norm_num
    · cases hx
  exact ⟨⟨hts, hall⟩,
    C5_nn_match_amended [[(0:ℝ)]] [[(1:ℝ)], [(2:ℝ)]] (1/2) [(0:ℝ)] 1 4
      hts hall⟩

/-! ## C1: assign_eig_ori corner test (sift.c lines 1342-1473)

The spherical window loop accumulates the structure tensor `A`, the windowed
gradient sum `vd_win`, and leaves in `vd` the gradient of the **last voxel
visited**.  After the eigen-decomposition, the directional derivative for
the corner test is computed as `d = SIFT3D_CVEC_DOT(&vd, &vr)` — the
leftover loop variable `vd`, not the windowed sum `vd_win` — and likewise
the denominator uses `‖vd‖`.  (If the window were empty, `vd` would even be
read uninitialized; the window sum is modelled here together with the
`Option`-valued last gradient.)  The structure tensor and the external
eigen-decomposition (`eigen_Mat_rm`, imutil.c) do not enter the corner
test's data flow and are not modelled. -/

/-- The C `Cvec` of single-precision coordinates, at exact reals. -/
structure Cvec where
  x : ℝ
  y : ℝ
  z : ℝ

/-- SIFT3D_CVEC_OP(+). -/
noncomputable def cvAdd (a b : Cvec) : Cvec := ⟨a.x + b.x, a.y + b.y, a.z + b.z⟩

/-- SIFT3D_CVEC_OP(−). -/
noncomputable def cvSub (a b : Cvec) : Cvec := ⟨a.x - b.x, a.y - b.y, a.z - b.z⟩

/-- SIFT3D_CVEC_SCALE. -/
noncomputable def cvScale (s : ℝ) (a : Cvec) : Cvec := ⟨s * a.x, s * a.y, s * a.z⟩

/-- SIFT3D_CVEC_DOT. -/
noncomputable def cvDot (a b : Cvec) : ℝ := a.x * b.x + a.y * b.y + a.z * b.z

/-- SIFT3D_CVEC_CROSS. -/
noncomputable def cvCross (a b : Cvec) : Cvec :=
  ⟨a.y * b.z - a.z * b.y, a.z * b.x - a.x * b.z, a.x * b.y - a.y * b.x⟩

/-- SIFT3D_CVEC_L2_NORM_SQ. -/
noncomputable def cvNormSq (a : Cvec) : ℝ := a.x * a.x + a.y * a.y + a.z * a.z

/-- SIFT3D_CVEC_L2_NORM. -/
noncomputable def cvNorm (a : Cvec) : ℝ := Real.sqrt (cvNormSq a)

/-- Modelled from the spec: `gradient_at(im, x, y, z)` — central differences
(SIFT3D_IM_GET_GRAD lives in macros.h, not in sift.c). -/
noncomputable def im_grad (im : Im3) (x y z : ℤ) : Cvec :=
  ⟨0.5 * (im (x+1) y z - im (x-1) y z),
   0.5 * (im x (y+1) z - im x (y-1) z),
   0.5 * (im x y (z+1) - im x y (z-1))⟩

/-- The box of voxels enumerated by IM_LOOP_SPHERE_START before its
squared-distance test: per-axis bounds
`max((int)c - (int)(rad+0.5), 1) .. min((int)c + (int)(rad+0.5), n-2)`.
Modelled from the spec: the raster order of SIFT3D_IM_LOOP_LIMITED_START
(macros.h) is taken z-outermost, x-innermost. -/
noncomputable def sphereBox (nx ny nz : ℤ) (cx cy cz : ℝ) (rad : ℝ) :
    List (ℤ × ℤ × ℤ) :=
  (intRange (max (c2i cz - c2i (rad + 0.5)) 1)
            (min (c2i cz + c2i (rad + 0.5)) (nz - 2))).flatMap fun z =>
    (intRange (max (c2i cy - c2i (rad + 0.5)) 1)
              (min (c2i cy + c2i (rad + 0.5)) (ny - 2))).flatMap fun y =>
      (intRange (max (c2i cx - c2i (rad + 0.5)) 1)
                (min (c2i cx + c2i (rad + 0.5)) (nx - 2))).map fun x =>
        (x, y, z)

/-- One iteration of the orientation window loop: skip the voxel when its
center lies outside the sphere, else add its gradient to `vd_win` and leave
it in `vd` (the second component: the last gradient computed). -/
noncomputable def oriWindowStep (im : Im3) (cx cy cz rad : ℝ)
    (st : Cvec × Option Cvec) (v : ℤ × ℤ × ℤ) : Cvec × Option Cvec :=
  let vdisp : Cvec := ⟨(v.1 : ℝ) + 0.5 - cx, (v.2.1 : ℝ) + 0.5 - cy,
    (v.2.2 : ℝ) + 0.5 - cz⟩
  let sq_dist := cvNormSq vdisp
  if sq_dist > rad * rad then st
  else
    let vd := im_grad im v.1 v.2.1 v.2.2
    (cvAdd st.1 vd, some vd)

/-- The orientation window loop of assign_eig_ori: the windowed gradient
sum `vd_win` and the last gradient `vd` left behind by the loop. -/
noncomputable def oriWindow (im : Im3) (nx ny nz : ℤ) (cx cy cz rad : ℝ) :
    Cvec × Option Cvec :=
  (sphereBox nx ny nz cx cy cz rad).foldl (oriWindowStep im cx cy cz rad)
    (⟨0, 0, 0⟩, none)

/-- The corner-score rejection test as the code performs it (sift.c lines
1421-1429): `d = vd · vr`, `cos_ang = d / (‖vr‖ ‖vd‖)`, reject when
`|cos_ang| < corner_thresh`, with `vd` the loop-leftover last gradient. -/
noncomputable def corner_reject_code (vd vr : Cvec) (corner_thresh : ℝ) :
    Prop :=
  |cvDot vd vr / (cvNorm vr * cvNorm vd)| < corner_thresh

/-- The corner-score rejection test as the specification states it:
`d = g_win · vᵢ`, reject when `|d| / (‖vᵢ‖ ‖g_win‖) < corner_thresh`.
This definition follows the spec's words, for comparison with the code. -/
noncomputable def corner_reject_claim (vdWin vr : Cvec) (corner_thresh : ℝ) :
    Prop :=
  |cvDot vdWin vr / (cvNorm vr * cvNorm vdWin)| < corner_thresh

/-- The concrete Gaussian level of the C1 divergence input: dimensions 4³,
nonzero at four voxels chosen so the two in-window voxels carry gradients
(1, 2, 0) and (1, −2, 0). -/
noncomputable def c1Im : Im3 := fun x y z =>
  if x = 3 ∧ y = 2 ∧ z = 1 then 2
  else if x = 2 ∧ y = 3 ∧ z = 1 then 4
  else if x = 3 ∧ y = 2 ∧ z = 2 then 2
  else if x = 2 ∧ y = 3 ∧ z = 2 then -4
  else 0

theorem c2i_5half : c2i (5/2 : ℝ) = 2 := by
  rw [c2i, if_pos (by norm_num : (0:ℝ) ≤ 5/2)]
  norm_num

theorem c2i_two : c2i (2 : ℝ) = 2 := by
  rw [c2i, if_pos (by norm_num : (0:ℝ) ≤ 2)]
  norm_num

theorem c2i_rad : c2i ((4/5 : ℝ) + 0.5) = 1 := by
  rw [c2i, if_pos (by norm_num : (0:ℝ) ≤ (4/5 : ℝ) + 0.5)]
  norm_num

theorem c1_box : sphereBox 4 4 4 (5/2) (5/2) 2 (4/5) =
    [(1,1,1), (2,1,1), (1,2,1), (2,2,1),
     (1,1,2), (2,1,2), (1,2,2), (2,2,2)] := by
  rw [sphereBox, c2i_5half, c2i_two, c2i_rad]
  norm_num
  rfl

theorem c1_window : oriWindow c1Im 4 4 4 (5/2) (5/2) 2 (4/5) =
    (⟨2, 0, 0⟩, some ⟨1, -2, 0⟩) := by
  rw [oriWindow, c1_box]
  simp only [List.foldl_cons, List.foldl_nil]
  norm_num [oriWindowStep, cvNormSq, cvAdd, im_grad, c1Im]

/-- Claim C1, evaluated on the code at a concrete divergence input: the
spherical window visits two voxels with gradients (1,2,0) and (1,−2,0), so
`vd_win = (2,0,0)` and the loop leaves `vd = (1,−2,0)`; the gradient
threshold passes (`‖vd_win‖² = 4`); with eigenvector `vᵢ = (1,0,0)` and the
default `corner_thresh = 0.5`, the code — whose corner score uses the last
loop gradient `vd` — rejects (`|cos| = 1/√5 < 0.5`), while the claimed
formula on the windowed sum `g_win` accepts (`|cos| = 1 ≥ 0.5`). -/
theorem C1_corner_divergence :
    oriWindow c1Im 4 4 4 (5/2) (5/2) 2 (4/5) =
      (⟨2, 0, 0⟩, some ⟨1, -2, 0⟩) ∧
    ¬ (cvNormSq ⟨2, 0, 0⟩ < oriGradThresh) ∧
    corner_reject_code ⟨1, -2, 0⟩ ⟨1, 0, 0⟩ 0.5 ∧
    ¬ corner_reject_claim ⟨2, 0, 0⟩ ⟨1, 0, 0⟩ 0.5 := by
  have hs5 : (2 : ℝ) < Real.sqrt 5 := by
    have h1 := Real.sq_sqrt (by norm_num : (0:ℝ) ≤ 5)
    have h2 := Real.sqrt_nonneg (5 : ℝ)
    nlinarith
  refine ⟨c1_window, ?_, ?_, ?_⟩
  · norm_num [cvNormSq, oriGradThresh]
  · show |cvDot ⟨1, -2, 0⟩ ⟨1, 0, 0⟩ /
      (cvNorm ⟨1, 0, 0⟩ * cvNorm ⟨1, -2, 0⟩)| < 0.5
    have hn1 : cvNorm ⟨1, 0, 0⟩ = 1 := by
      simp [cvNorm, cvNormSq]
    have hn5 : cvNorm ⟨1, -2, 0⟩ = Real.sqrt 5 := by
      norm_num [cvNorm, cvNormSq]
    have hdot : cvDot ⟨1, -2, 0⟩ ⟨1, 0, 0⟩ = 1 := by
      norm_num [cvDot]
    rw [hn1, hn5, hdot, one_mul]
    rw [abs_of_pos (div_pos one_pos (by linarith))]
    rw [div_lt_iff (by linarith : (0:ℝ) < Real.sqrt 5)]
    linarith
  · show ¬ |cvDot ⟨2, 0, 0⟩ ⟨1, 0, 0⟩ /
      (cvNorm ⟨1, 0, 0⟩ * cvNorm ⟨2, 0, 0⟩)| < 0.5
    have hn1 : cvNorm ⟨1, 0, 0⟩ = 1 := by
      simp [cvNorm, cvNormSq]
    have hn2 : cvNorm ⟨2, 0, 0⟩ = 2 := by
      rw [cvNorm, show cvNormSq ⟨2, 0, 0⟩ = 2 ^ 2 by norm_num [cvNormSq]]
      exact Real.sqrt_sq (by norm_num)
    have hdot : cvDot ⟨2, 0, 0⟩ ⟨1, 0, 0⟩ = 2 := by
      norm_num [cvDot]
    rw [hn1, hn2, hdot, one_mul]
    norm_num

/-! ## C8: icos_hist_bin (sift.c lines 1567-1607), cart2bary (lines 307-366)
and init_geometry (lines 189-298)

The mesh is built from the 12 icosahedron vertices (permutations of
`(0, ±1, ±gr)`, each normalized to unit length by its own computed norm) and
the 20 face index triplets; each face whose normal
`(v2−v1)×(v1−v0)` points inward (negative dot with `v0`) gets its first two
vertices swapped (the `idx` fields are not swapped).  `cart2bary` is the
Möller–Trumbore computation, failing when `|det| < bary_eps`; the scan of
`icos_hist_bin` skips a face when `cart2bary` fails or when a barycentric
coordinate is below `−bary_eps` or `k < 0`, and the fall-through after the
loop (`assert(false)`) is modelled as `none`. -/

/-- Golden ratio literal `gr` (sift.c line 65). -/
noncomputable def gr : ℝ := 1.6180339887

/-- The 12 unnormalized icosahedron vertices (sift.c `vert[]` table). -/
noncomputable def uvert : ℕ → Cvec
  | 0 => ⟨0, 1, gr⟩
  | 1 => ⟨0, -1, gr⟩
  | 2 => ⟨0, 1, -gr⟩
  | 3 => ⟨0, -1, -gr⟩
  | 4 => ⟨1, gr, 0⟩
  | 5 => ⟨-1, gr, 0⟩
  | 6 => ⟨1, -gr, 0⟩
  | 7 => ⟨-1, -gr, 0⟩
  | 8 => ⟨gr, 0, 1⟩
  | 9 => ⟨-gr, 0, 1⟩
  | 10 => ⟨gr, 0, -1⟩
  | _ => ⟨-gr, 0, -1⟩

/-- The 20 face vertex-index triplets (sift.c `faces[]` table). -/
def faceTable : ℕ → ℕ × ℕ × ℕ
  | 0 => (0, 1, 8)
  | 1 => (0, 8, 4)
  | 2 => (0, 4, 5)
  | 3 => (0, 5, 9)
  | 4 => (0, 9, 1)
  | 5 => (1, 6, 8)
  | 6 => (8, 6, 10)
  | 7 => (8, 10, 4)
  | 8 => (4, 10, 2)
  | 9 => (4, 2, 5)
  | 10 => (5, 2, 11)
  | 11 => (5, 11, 9)
  | 12 => (9, 11, 7)
  | 13 => (9, 7, 1)
  | 14 => (1, 7, 6)
  | 15 => (3, 6, 7)
  | 16 => (3, 7, 11)
  | 17 => (3, 11, 2)
  | 18 => (3, 2, 10)
  | _ => (3, 10, 6)

/-- A mesh triangle: three vertices and their three histogram bin indices. -/
structure Tri where
  v0 : Cvec
  v1 : Cvec
  v2 : Cvec
  i0 : ℕ
  i1 : ℕ
  i2 : ℕ

/-- A vertex of the mesh, normalized to unit length by its own computed
norm, as init_geometry does per vertex. -/
noncomputable def vertScaled (j : ℕ) : Cvec :=
  cvScale (1 / cvNorm (uvert j)) (uvert j)

/-- A face triangle before the orientation fix. -/
noncomputable def rawTri (i : ℕ) : Tri :=
  ⟨vertScaled (faceTable i).1, vertScaled (faceTable i).2.1,
   vertScaled (faceTable i).2.2,
   (faceTable i).1, (faceTable i).2.1, (faceTable i).2.2⟩

/-- The orientation fix of init_geometry: compute `n = (v2−v1)×(v1−v0)`;
if `n·v0 < 0`, swap `v0` and `v1` (the bin indices are left in place). -/
noncomputable def orientTri (t : Tri) : Tri :=
  let n := cvCross (cvSub t.v2 t.v1) (cvSub t.v1 t.v0)
  if cvDot n t.v0 < 0 then ⟨t.v1, t.v0, t.v2, t.i0, t.i1, t.i2⟩ else t

/-- The mesh built by init_geometry. -/
noncomputable def mesh : List Tri :=
  (List.range 20).map (fun i => orientTri (rawTri i))

/-- cart2bary (Möller–Trumbore): `none` when `|det| < bary_eps`, else the
barycentric coordinates and the ray scale `k`. -/
noncomputable def cart2bary (cart : Cvec) (tri : Tri) :
    Option (Cvec × ℝ) :=
  let e1 := cvSub tri.v1 tri.v0
  let e2 := cvSub tri.v2 tri.v0
  let p := cvCross cart e2
  let det := cvDot e1 p
  if |det| < baryEps then none
  else
    let det_inv := 1 / det
    let t := cvScale (-1) tri.v0
    let q := cvCross t e1
    let bary_y := det_inv * cvDot t p
    let bary_z := det_inv * cvDot cart q
    some (⟨1 - bary_y - bary_z, bary_y, bary_z⟩, cvDot e2 q * det_inv)

/-- The acceptance condition of one iteration of the icos_hist_bin loop. -/
noncomputable def triAccept (cart : Cvec) (t : Tri) : Prop :=
  ∃ bary k, cart2bary cart t = some (bary, k) ∧
    ¬(bary.x < -baryEps ∨ bary.y < -baryEps ∨ bary.z < -baryEps ∨ k < 0)

/-- The face scan of icos_hist_bin: first accepting face wins; falling
through the loop (`assert(false)` in the source) yields `none`. -/
noncomputable def ihbGo (cart : Cvec) : List Tri → ℕ → Option (Cvec × ℕ)
  | [], _ => none
  | t :: rest, i =>
    match cart2bary cart t with
    | none => ihbGo cart rest (i + 1)
    | some (bary, k) =>
      if bary.x < -baryEps ∨ bary.y < -baryEps ∨ bary.z < -baryEps ∨ k < 0
      then ihbGo cart rest (i + 1)
      else some (bary, i)

/-- icos_hist_bin: fail on very small vectors, else scan the mesh faces in
declared order. -/
noncomputable def icos_hist_bin (cart : Cvec) : Option (Cvec × ℕ) :=
  if cvNormSq cart < baryEps then none
  else ihbGo cart mesh 0

/-- If some face of the list accepts, the scan succeeds. -/
theorem ihbGo_isSome (cart : Cvec) (l : List Tri) (i : ℕ)
    (h : ∃ t ∈ l, triAccept cart t) : (ihbGo cart l i).isSome := by
  induction l generalizing i with
  | nil =>
    rcases h with ⟨t, ht, -⟩
    cases ht
  | cons t rest ih =>
    rcases h with ⟨t2, ht2, hacc⟩
    rw [ihbGo]
    rcases List.mem_cons.mp ht2 with rfl | hmem
    · rcases hacc with ⟨bary, k, heq, hcond⟩
      rw [heq]
      simp only [if_neg hcond, Option.isSome_some]
    · cases hcb : cart2bary cart t with
      | none => exact ih (i + 1) ⟨t2, hmem, hacc⟩
      | some bk =>
        obtain ⟨bary, k⟩ := bk
        by_cases hcond : bary.x < -baryEps ∨ bary.y < -baryEps ∨
            bary.z < -baryEps ∨ k < 0
        · simp only [if_pos hcond]
          exact ih (i + 1) ⟨t2, hmem, hacc⟩
        · simp only [if_neg hcond, Option.isSome_some]

/-- The common normalization factor: all 12 vertices have squared norm
`1 + gr²`. -/
noncomputable def sNorm : ℝ := 1 / Real.sqrt (1 + gr * gr)

theorem one_add_gr_sq_pos : (0 : ℝ) < 1 + gr * gr := by
  norm_num [gr]

theorem sNorm_pos : 0 < sNorm := by
  rw [sNorm]
  exact one_div_pos.mpr (Real.sqrt_pos.mpr one_add_gr_sq_pos)

theorem sNorm_sq : sNorm * sNorm = 1 / (1 + gr * gr) := by
  rw [sNorm, div_mul_div_comm, one_mul,
    Real.mul_self_sqrt one_add_gr_sq_pos.le]

/-- Every vertex is scaled by the same factor `sNorm`. -/
theorem vertScaled_eq (j : ℕ) : vertScaled j = cvScale sNorm (uvert j) := by
  have key : ∀ c : Cvec, cvNormSq c = 1 + gr * gr →
      cvScale (1 / cvNorm c) c = cvScale sNorm c := by
    intro c hc
    rw [cvNorm, hc, sNorm]
  rcases j with _ | _ | _ | _ | _ | _ | _ | _ | _ | _ | _ | j <;>
    rw [vertScaled] <;>
    refine key _ ?_ <;>
    simp only [uvert, cvNormSq] <;>
    ring

/-- The generic scaling identity for the orientation test. -/
theorem orient_dot_scaled (u0 u1 u2 : Cvec) :
    cvDot (cvCross (cvSub (cvScale sNorm u2) (cvScale sNorm u1))
        (cvSub (cvScale sNorm u1) (cvScale sNorm u0)))
      (cvScale sNorm u0) =
    sNorm * sNorm * sNorm *
      cvDot (cvCross (cvSub u2 u1) (cvSub u1 u0)) u0 := by
  simp only [cvDot, cvCross, cvSub, cvScale]
  ring

/-- When the unscaled orientation determinant is negative, the triangle's
first two vertices are swapped. -/
theorem orientTri_swap (u0 u1 u2 : Cvec) (i0 i1 i2 : ℕ)
    (hneg : cvDot (cvCross (cvSub u2 u1) (cvSub u1 u0)) u0 < 0) :
    orientTri ⟨cvScale sNorm u0, cvScale sNorm u1, cvScale sNorm u2,
        i0, i1, i2⟩ =
      ⟨cvScale sNorm u1, cvScale sNorm u0, cvScale sNorm u2, i0, i1, i2⟩ := by
  rw [orientTri]
  have hd := orient_dot_scaled u0 u1 u2
  have hcond : cvDot (cvCross (cvSub (cvScale sNorm u2) (cvScale sNorm u1))
      (cvSub (cvScale sNorm u1) (cvScale sNorm u0)))
      (cvScale sNorm u0) < 0 := by
    rw [hd]
    have hs3 : 0 < sNorm * sNorm * sNorm :=
      mul_pos (mul_pos sNorm_pos sNorm_pos) sNorm_pos
    exact mul_neg_of_pos_of_neg hs3 hneg
  rw [if_pos hcond]

/-- The oriented mesh face, with the swap applied (all 20 faces of the
source table are inward-oriented and get swapped). -/
noncomputable def mTri (i : ℕ) : Tri :=
  ⟨cvScale sNorm (uvert (faceTable i).2.1),
   cvScale sNorm (uvert (faceTable i).1),
   cvScale sNorm (uvert (faceTable i).2.2),
   (faceTable i).1, (faceTable i).2.1, (faceTable i).2.2⟩

/-- Every face of the source table is inward-oriented, so init_geometry
swaps its first two vertices. -/
theorem orientRaw_eq (i : ℕ) : i < 20 → orientTri (rawTri i) = mTri i := by
  intro hi
  interval_cases i <;>
  · rw [rawTri, mTri]
    simp only [faceTable]
    rw [vertScaled_eq, vertScaled_eq, vertScaled_eq]
    exact orientTri_swap _ _ _ _ _ _
      (by norm_num [uvert, cvDot, cvCross, cvSub, gr])

/-- The mesh as an explicit list of oriented faces. -/
theorem meshEq : mesh = (List.range 20).map mTri := by
  rw [mesh]
  exact List.map_congr_left (fun i hi => orientRaw_eq i (List.mem_range.mp hi))

/-- The Möller–Trumbore determinant on the unscaled vertices. -/
noncomputable def detU (u0 u1 u2 cart : Cvec) : ℝ :=
  cvDot (cvSub u1 u0) (cvCross cart (cvSub u2 u0))

/-- The numerator of `bary.y` on the unscaled vertices. -/
noncomputable def nyU (u0 u2 cart : Cvec) : ℝ :=
  cvDot (cvScale (-1) u0) (cvCross cart (cvSub u2 u0))

/-- The numerator of `bary.z` on the unscaled vertices. -/
noncomputable def nzU (u0 u1 cart : Cvec) : ℝ :=
  cvDot cart (cvCross (cvScale (-1) u0) (cvSub u1 u0))

/-- The numerator of `k` on the unscaled vertices (a per-face constant). -/
noncomputable def kcU (u0 u1 u2 : Cvec) : ℝ :=
  cvDot (cvSub u2 u0) (cvCross (cvScale (-1) u0) (cvSub u1 u0))

theorem baryEps_pos : (0 : ℝ) < baryEps := by
  norm_num [baryEps, fltEps]

/-- Acceptance of a face with `sNorm`-scaled vertices follows from margin
conditions on the unscaled rational functionals: `det` scales by `sNorm²`,
the barycentric numerators scale by `sNorm²`, and `k`'s numerator by
`sNorm³`, so all acceptance tests reduce to the unscaled data. -/
theorem triAccept_scaled (u0 u1 u2 : Cvec) (i0 i1 i2 : ℕ) (cart : Cvec)
    (hD : (1 + gr * gr) * baryEps ≤ detU u0 u1 u2 cart)
    (hY : 0 ≤ nyU u0 u2 cart + baryEps * detU u0 u1 u2 cart)
    (hZ : 0 ≤ nzU u0 u1 cart + baryEps * detU u0 u1 u2 cart)
    (hX : 0 ≤ (detU u0 u1 u2 cart - nyU u0 u2 cart - nzU u0 u1 cart) +
        baryEps * detU u0 u1 u2 cart)
    (hK : 0 < kcU u0 u1 u2) :
    triAccept cart
      ⟨cvScale sNorm u0, cvScale sNorm u1, cvScale sNorm u2, i0, i1, i2⟩ := by
  have hD0 : 0 < detU u0 u1 u2 cart :=
    lt_of_lt_of_le (mul_pos one_add_gr_sq_pos baryEps_pos) hD
  have hs2 : sNorm * sNorm * (1 + gr * gr) = 1 := by
    rw [sNorm_sq]
    exact one_div_mul_cancel (ne_of_gt one_add_gr_sq_pos)
  have hs0 : sNorm ≠ 0 := ne_of_gt sNorm_pos
  have hDne : detU u0 u1 u2 cart ≠ 0 := ne_of_gt hD0
  -- the scaled det
  have hdetval : cvDot (cvSub (cvScale sNorm u1) (cvScale sNorm u0))
      (cvCross cart (cvSub (cvScale sNorm u2) (cvScale sNorm u0))) =
      sNorm * sNorm * detU u0 u1 u2 cart := by
    simp only [detU, cvDot, cvCross, cvSub, cvScale]
    ring
  have htyval : cvDot (cvScale (-1) (cvScale sNorm u0))
      (cvCross cart (cvSub (cvScale sNorm u2) (cvScale sNorm u0))) =
      sNorm * sNorm * nyU u0 u2 cart := by
    simp only [nyU, cvDot, cvCross, cvSub, cvScale]
    ring
  have htzval : cvDot cart (cvCross (cvScale (-1) (cvScale sNorm u0))
      (cvSub (cvScale sNorm u1) (cvScale sNorm u0))) =
      sNorm * sNorm * nzU u0 u1 cart := by
    simp only [nzU, cvDot, cvCross, cvSub, cvScale]
    ring
  have htkval : cvDot (cvSub (cvScale sNorm u2) (cvScale sNorm u0))
      (cvCross (cvScale (-1) (cvScale sNorm u0))
        (cvSub (cvScale sNorm u1) (cvScale sNorm u0))) =
      sNorm * sNorm * sNorm * kcU u0 u1 u2 := by
    simp only [kcU, cvDot, cvCross, cvSub, cvScale]
    ring
  have hsd : 0 < sNorm * sNorm * detU u0 u1 u2 cart :=
    mul_pos (mul_pos sNorm_pos sNorm_pos) hD0
  have hepsle : baryEps ≤ sNorm * sNorm * detU u0 u1 u2 cart := by
    have h1 : sNorm * sNorm * ((1 + gr * gr) * baryEps) ≤
        sNorm * sNorm * detU u0 u1 u2 cart :=
      mul_le_mul_of_nonneg_left hD
        (mul_nonneg sNorm_pos.le sNorm_pos.le)
    calc baryEps = sNorm * sNorm * ((1 + gr * gr) * baryEps) := by
          rw [← mul_assoc, hs2, one_mul]
      _ ≤ sNorm * sNorm * detU u0 u1 u2 cart := h1
  have hnotlt : ¬ |cvDot (cvSub (cvScale sNorm u1) (cvScale sNorm u0))
      (cvCross cart (cvSub (cvScale sNorm u2) (cvScale sNorm u0)))| <
      baryEps := by
    rw [hdetval, abs_of_pos hsd, not_lt]
    exact hepsle
  have hcb : cart2bary cart
      ⟨cvScale sNorm u0, cvScale sNorm u1, cvScale sNorm u2, i0, i1, i2⟩ =
      some (⟨1 - nyU u0 u2 cart / detU u0 u1 u2 cart -
          nzU u0 u1 cart / detU u0 u1 u2 cart,
        nyU u0 u2 cart / detU u0 u1 u2 cart,
        nzU u0 u1 cart / detU u0 u1 u2 cart⟩,
        sNorm * kcU u0 u1 u2 / detU u0 u1 u2 cart) := by
    simp only [cart2bary]
    rw [hdetval, htyval, htzval, htkval]
    rw [if_neg (by rw [abs_of_pos hsd]; exact not_lt.mpr hepsle)]
    refine congrArg some ?_
    simp only [Prod.mk.injEq, Cvec.mk.injEq]
    refine ⟨⟨?_, ?_, ?_⟩, ?_⟩
    · field_simp
      ring
    · field_simp
      ring
    · field_simp
      ring
    · field_simp
      ring
  have heq1 : (detU u0 u1 u2 cart - nyU u0 u2 cart - nzU u0 u1 cart) /
      detU u0 u1 u2 cart =
      1 - nyU u0 u2 cart / detU u0 u1 u2 cart -
        nzU u0 u1 cart / detU u0 u1 u2 cart := by
    field_simp
  refine ⟨_, _, hcb, ?_⟩
  push_neg
  refine ⟨?_, ?_, ?_, ?_⟩
  · rw [← heq1, le_div_iff hD0]
    linarith
  · rw [le_div_iff hD0]
    linarith
  · rw [le_div_iff hD0]
    linarith
  · exact div_nonneg (mul_nonneg sNorm_pos.le hK.le) hD0.le

/-- The (unscaled) sum of a face's three vertices — the face center
direction used for the covering argument. -/
noncomputable def faceC (i : ℕ) : Cvec :=
  cvAdd (cvAdd (uvert (faceTable i).1) (uvert (faceTable i).2.1))
    (uvert (faceTable i).2.2)


/-- Face 0 accepts every direction that dominates its three neighboring
face centers and clears the covering margin. -/
theorem faceAccept_0 (cart : Cvec)
    (h1 : cvDot cart (faceC 1) ≤ cvDot cart (faceC 0))
    (h2 : cvDot cart (faceC 4) ≤ cvDot cart (faceC 0))
    (h3 : cvDot cart (faceC 5) ≤ cvDot cart (faceC 0))
    (hm : (1 + gr) * (3/5000) ≤ cvDot cart (faceC 0)) :
    triAccept cart (mTri 0) := by
  rw [mTri]
  simp only [faceTable]
  simp only [faceC, faceTable, uvert, cvDot, cvAdd, gr] at h1 h2 h3 hm
  ring_nf at h1 h2 h3 hm
  refine triAccept_scaled _ _ _ _ _ _ cart ?_ ?_ ?_ ?_ ?_ <;>
    simp only [detU, nyU, nzU, kcU, uvert, cvDot, cvCross, cvSub, cvScale,
      baryEps, fltEps, gr] <;>
    ring_nf <;>
    [skip; skip; skip; skip; norm_num] <;>
    linarith [h1, h2, h3, hm]

/-- Face 1 accepts every direction that dominates its three neighboring
face centers and clears the covering margin. -/
theorem faceAccept_1 (cart : Cvec)
    (h1 : cvDot cart (faceC 0) ≤ cvDot cart (faceC 1))
    (h2 : cvDot cart (faceC 2) ≤ cvDot cart (faceC 1))
    (h3 : cvDot cart (faceC 7) ≤ cvDot cart (faceC 1))
    (hm : (1 + gr) * (3/5000) ≤ cvDot cart (faceC 1)) :
    triAccept cart (mTri 1) := by
  rw [mTri]
  simp only [faceTable]
  simp only [faceC, faceTable, uvert, cvDot, cvAdd, gr] at h1 h2 h3 hm
  ring_nf at h1 h2 h3 hm
  refine triAccept_scaled _ _ _ _ _ _ cart ?_ ?_ ?_ ?_ ?_ <;>
    simp only [detU, nyU, nzU, kcU, uvert, cvDot, cvCross, cvSub, cvScale,
      baryEps, fltEps, gr] <;>
    ring_nf <;>
    [skip; skip; skip; skip; norm_num] <;>
    linarith [h1, h2, h3, hm]

/-- Face 2 accepts every direction that dominates its three neighboring
face centers and clears the covering margin. -/
theorem faceAccept_2 (cart : Cvec)
    (h1 : cvDot cart (faceC 1) ≤ cvDot cart (faceC 2))
    (h2 : cvDot cart (faceC 3) ≤ cvDot cart (faceC 2))
    (h3 : cvDot cart (faceC 9) ≤ cvDot cart (faceC 2))
    (hm : (1 + gr) * (3/5000) ≤ cvDot cart (faceC 2)) :
    triAccept cart (mTri 2) := by
  rw [mTri]
  simp only [faceTable]
  simp only [faceC, faceTable, uvert, cvDot, cvAdd, gr] at h1 h2 h3 hm
  ring_nf at h1 h2 h3 hm
  refine triAccept_scaled _ _ _ _ _ _ cart ?_ ?_ ?_ ?_ ?_ <;>
    simp only [detU, nyU, nzU, kcU, uvert, cvDot, cvCross, cvSub, cvScale,
      baryEps, fltEps, gr] <;>
    ring_nf <;>
    [skip; skip; skip; skip; norm_num] <;>
    linarith [h1, h2, h3, hm]

/-- Face 3 accepts every direction that dominates its three neighboring
face centers and clears the covering margin. -/
theorem faceAccept_3 (cart : Cvec)
    (h1 : cvDot cart (faceC 2) ≤ cvDot cart (faceC 3))
    (h2 : cvDot cart (faceC 4) ≤ cvDot cart (faceC 3))
    (h3 : cvDot cart (faceC 11) ≤ cvDot cart (faceC 3))
    (hm : (1 + gr) * (3/5000) ≤ cvDot cart (faceC 3)) :
    triAccept cart (mTri 3) := by
  rw [mTri]
  simp only [faceTable]
  simp only [faceC, faceTable, uvert, cvDot, cvAdd, gr] at h1 h2 h3 hm
  ring_nf at h1 h2 h3 hm
  refine triAccept_scaled _ _ _ _ _ _ cart ?_ ?_ ?_ ?_ ?_ <;>
    simp only [detU, nyU, nzU, kcU, uvert, cvDot, cvCross, cvSub, cvScale,
      baryEps, fltEps, gr] <;>
    ring_nf <;>
    [skip; skip; skip; skip; norm_num] <;>
    linarith [h1, h2, h3, hm]

/-- Face 4 accepts every direction that dominates its three neighboring
face centers and clears the covering margin. -/
theorem faceAccept_4 (cart : Cvec)
    (h1 : cvDot cart (faceC 0) ≤ cvDot cart (faceC 4))
    (h2 : cvDot cart (faceC 3) ≤ cvDot cart (faceC 4))
    (h3 : cvDot cart (faceC 13) ≤ cvDot cart (faceC 4))
    (hm : (1 + gr) * (3/5000) ≤ cvDot cart (faceC 4)) :
    triAccept cart (mTri 4) := by
  rw [mTri]
  simp only [faceTable]
  simp only [faceC, faceTable, uvert, cvDot, cvAdd, gr] at h1 h2 h3 hm
  ring_nf at h1 h2 h3 hm
  refine triAccept_scaled _ _ _ _ _ _ cart ?_ ?_ ?_ ?_ ?_ <;>
    simp only [detU, nyU, nzU, kcU, uvert, cvDot, cvCross, cvSub, cvScale,
      baryEps, fltEps, gr] <;>
    ring_nf <;>
    [skip; skip; skip; skip; norm_num] <;>
    linarith [h1, h2, h3, hm]

/-- Face 5 accepts every direction that dominates its three neighboring
face centers and clears the covering margin. -/
theorem faceAccept_5 (cart : Cvec)
    (h1 : cvDot cart (faceC 0) ≤ cvDot cart (faceC 5))
    (h2 : cvDot cart (faceC 6) ≤ cvDot cart (faceC 5))
    (h3 : cvDot cart (faceC 14) ≤ cvDot cart (faceC 5))
    (hm : (1 + gr) * (3/5000) ≤ cvDot cart (faceC 5)) :
    triAccept cart (mTri 5) := by
  rw [mTri]
  simp only [faceTable]
  simp only [faceC, faceTable, uvert, cvDot, cvAdd, gr] at h1 h2 h3 hm
  ring_nf at h1 h2 h3 hm
  refine triAccept_scaled _ _ _ _ _ _ cart ?_ ?_ ?_ ?_ ?_ <;>
    simp only [detU, nyU, nzU, kcU, uvert, cvDot, cvCross, cvSub, cvScale,
      baryEps, fltEps, gr] <;>
    ring_nf <;>
    [skip; skip; skip; skip; norm_num] <;>
    linarith [h1, h2, h3, hm]

/-- Face 6 accepts every direction that dominates its three neighboring
face centers and clears the covering margin. -/
theorem faceAccept_6 (cart : Cvec)
    (h1 : cvDot cart (faceC 5) ≤ cvDot cart (faceC 6))
    (h2 : cvDot cart (faceC 7) ≤ cvDot cart (faceC 6))
    (h3 : cvDot cart (faceC 19) ≤ cvDot cart (faceC 6))
    (hm : (1 + gr) * (3/5000) ≤ cvDot cart (faceC 6)) :
    triAccept cart (mTri 6) := by
  rw [mTri]
  simp only [faceTable]
  simp only [faceC, faceTable, uvert, cvDot, cvAdd, gr] at h1 h2 h3 hm
  ring_nf at h1 h2 h3 hm
  refine triAccept_scaled _ _ _ _ _ _ cart ?_ ?_ ?_ ?_ ?_ <;>
    simp only [detU, nyU, nzU, kcU, uvert, cvDot, cvCross, cvSub, cvScale,
      baryEps, fltEps, gr] <;>
    ring_nf <;>
    [skip; skip; skip; skip; norm_num] <;>
    linarith [h1, h2, h3, hm]

/-- Face 7 accepts every direction that dominates its three neighboring
face centers and clears the covering margin. -/
theorem faceAccept_7 (cart : Cvec)
    (h1 : cvDot cart (faceC 1) ≤ cvDot cart (faceC 7))
    (h2 : cvDot cart (faceC 6) ≤ cvDot cart (faceC 7))
    (h3 : cvDot cart (faceC 8) ≤ cvDot cart (faceC 7))
    (hm : (1 + gr) * (3/5000) ≤ cvDot cart (faceC 7)) :
    triAccept cart (mTri 7) := by
  rw [mTri]
  simp only [faceTable]
  simp only [faceC, faceTable, uvert, cvDot, cvAdd, gr] at h1 h2 h3 hm
  ring_nf at h1 h2 h3 hm
  refine triAccept_scaled _ _ _ _ _ _ cart ?_ ?_ ?_ ?_ ?_ <;>
    simp only [detU, nyU, nzU, kcU, uvert, cvDot, cvCross, cvSub, cvScale,
      baryEps, fltEps, gr] <;>
    ring_nf <;>
    [skip; skip; skip; skip; norm_num] <;>
    linarith [h1, h2, h3, hm]

/-- Face 8 accepts every direction that dominates its three neighboring
face centers and clears the covering margin. -/
theorem faceAccept_8 (cart : Cvec)
    (h1 : cvDot cart (faceC 7) ≤ cvDot cart (faceC 8))
    (h2 : cvDot cart (faceC 9) ≤ cvDot cart (faceC 8))
    (h3 : cvDot cart (faceC 18) ≤ cvDot cart (faceC 8))
    (hm : (1 + gr) * (3/5000) ≤ cvDot cart (faceC 8)) :
    triAccept cart (mTri 8) := by
  rw [mTri]
  simp only [faceTable]
  simp only [faceC, faceTable, uvert, cvDot, cvAdd, gr] at h1 h2 h3 hm
  ring_nf at h1 h2 h3 hm
  refine triAccept_scaled _ _ _ _ _ _ cart ?_ ?_ ?_ ?_ ?_ <;>
    simp only [detU, nyU, nzU, kcU, uvert, cvDot, cvCross, cvSub, cvScale,
      baryEps, fltEps, gr] <;>
    ring_nf <;>
    [skip; skip; skip; skip; norm_num] <;>
    linarith [h1, h2, h3, hm]

/-- Face 9 accepts every direction that dominates its three neighboring
face centers and clears the covering margin. -/
theorem faceAccept_9 (cart : Cvec)
    (h1 : cvDot cart (faceC 2) ≤ cvDot cart (faceC 9))
    (h2 : cvDot cart (faceC 8) ≤ cvDot cart (faceC 9))
    (h3 : cvDot cart (faceC 10) ≤ cvDot cart (faceC 9))
    (hm : (1 + gr) * (3/5000) ≤ cvDot cart (faceC 9)) :
    triAccept cart (mTri 9) := by
  rw [mTri]
  simp only [faceTable]
  simp only [faceC, faceTable, uvert, cvDot, cvAdd, gr] at h1 h2 h3 hm
  ring_nf at h1 h2 h3 hm
  refine triAccept_scaled _ _ _ _ _ _ cart ?_ ?_ ?_ ?_ ?_ <;>
    simp only [detU, nyU, nzU, kcU, uvert, cvDot, cvCross, cvSub, cvScale,
      baryEps, fltEps, gr] <;>
    ring_nf <;>
    [skip; skip; skip; skip; norm_num] <;>
    linarith [h1, h2, h3, hm]

/-- Face 10 accepts every direction that dominates its three neighboring
face centers and clears the covering margin. -/
theorem faceAccept_10 (cart : Cvec)
    (h1 : cvDot cart (faceC 9) ≤ cvDot cart (faceC 10))
    (h2 : cvDot cart (faceC 11) ≤ cvDot cart (faceC 10))
    (h3 : cvDot cart (faceC 17) ≤ cvDot cart (faceC 10))
    (hm : (1 + gr) * (3/5000) ≤ cvDot cart (faceC 10)) :
    triAccept cart (mTri 10) := by
  rw [mTri]
  simp only [faceTable]
  simp only [faceC, faceTable, uvert, cvDot, cvAdd, gr] at h1 h2 h3 hm
  ring_nf at h1 h2 h3 hm
  refine triAccept_scaled _ _ _ _ _ _ cart ?_ ?_ ?_ ?_ ?_ <;>
    simp only [detU, nyU, nzU, kcU, uvert, cvDot, cvCross, cvSub, cvScale,
      baryEps, fltEps, gr] <;>
    ring_nf <;>
    [skip; skip; skip; skip; norm_num] <;>
    linarith [h1, h2, h3, hm]

/-- Face 11 accepts every direction that dominates its three neighboring
face centers and clears the covering margin. -/
theorem faceAccept_11 (cart : Cvec)
    (h1 : cvDot cart (faceC 3) ≤ cvDot cart (faceC 11))
    (h2 : cvDot cart (faceC 10) ≤ cvDot cart (faceC 11))
    (h3 : cvDot cart (faceC 12) ≤ cvDot cart (faceC 11))
    (hm : (1 + gr) * (3/5000) ≤ cvDot cart (faceC 11)) :
    triAccept cart (mTri 11) := by
  rw [mTri]
  simp only [faceTable]
  simp only [faceC, faceTable, uvert, cvDot, cvAdd, gr] at h1 h2 h3 hm
  ring_nf at h1 h2 h3 hm
  refine triAccept_scaled _ _ _ _ _ _ cart ?_ ?_ ?_ ?_ ?_ <;>
    simp only [detU, nyU, nzU, kcU, uvert, cvDot, cvCross, cvSub, cvScale,
      baryEps, fltEps, gr] <;>
    ring_nf <;>
    [skip; skip; skip; skip; norm_num] <;>
    linarith [h1, h2, h3, hm]

/-- Face 12 accepts every direction that dominates its three neighboring
face centers and clears the covering margin. -/
theorem faceAccept_12 (cart : Cvec)
    (h1 : cvDot cart (faceC 11) ≤ cvDot cart (faceC 12))
    (h2 : cvDot cart (faceC 13) ≤ cvDot cart (faceC 12))
    (h3 : cvDot cart (faceC 16) ≤ cvDot cart (faceC 12))
    (hm : (1 + gr) * (3/5000) ≤ cvDot cart (faceC 12)) :
    triAccept cart (mTri 12) := by
  rw [mTri]
  simp only [faceTable]
  simp only [faceC, faceTable, uvert, cvDot, cvAdd, gr] at h1 h2 h3 hm
  ring_nf at h1 h2 h3 hm
  refine triAccept_scaled _ _ _ _ _ _ cart ?_ ?_ ?_ ?_ ?_ <;>
    simp only [detU, nyU, nzU, kcU, uvert, cvDot, cvCross, cvSub, cvScale,
      baryEps, fltEps, gr] <;>
    ring_nf <;>
    [skip; skip; skip; skip; norm_num] <;>
    linarith [h1, h2, h3, hm]

/-- Face 13 accepts every direction that dominates its three neighboring
face centers and clears the covering margin. -/
theorem faceAccept_13 (cart : Cvec)
    (h1 : cvDot cart (faceC 4) ≤ cvDot cart (faceC 13))
    (h2 : cvDot cart (faceC 12) ≤ cvDot cart (faceC 13))
    (h3 : cvDot cart (faceC 14) ≤ cvDot cart (faceC 13))
    (hm : (1 + gr) * (3/5000) ≤ cvDot cart (faceC 13)) :
    triAccept cart (mTri 13) := by
  rw [mTri]
  simp only [faceTable]
  simp only [faceC, faceTable, uvert, cvDot, cvAdd, gr] at h1 h2 h3 hm
  ring_nf at h1 h2 h3 hm
  refine triAccept_scaled _ _ _ _ _ _ cart ?_ ?_ ?_ ?_ ?_ <;>
    simp only [detU, nyU, nzU, kcU, uvert, cvDot, cvCross, cvSub, cvScale,
      baryEps, fltEps, gr] <;>
    ring_nf <;>
    [skip; skip; skip; skip; norm_num] <;>
    linarith [h1, h2, h3, hm]

/-- Face 14 accepts every direction that dominates its three neighboring
face centers and clears the covering margin. -/
theorem faceAccept_14 (cart : Cvec)
    (h1 : cvDot cart (faceC 5) ≤ cvDot cart (faceC 14))
    (h2 : cvDot cart (faceC 13) ≤ cvDot cart (faceC 14))
    (h3 : cvDot cart (faceC 15) ≤ cvDot cart (faceC 14))
    (hm : (1 + gr) * (3/5000) ≤ cvDot cart (faceC 14)) :
    triAccept cart (mTri 14) := by
  rw [mTri]
  simp only [faceTable]
  simp only [faceC, faceTable, uvert, cvDot, cvAdd, gr] at h1 h2 h3 hm
  ring_nf at h1 h2 h3 hm
  refine triAccept_scaled _ _ _ _ _ _ cart ?_ ?_ ?_ ?_ ?_ <;>
    simp only [detU, nyU, nzU, kcU, uvert, cvDot, cvCross, cvSub, cvScale,
      baryEps, fltEps, gr] <;>
    ring_nf <;>
    [skip; skip; skip; skip; norm_num] <;>
    linarith [h1, h2, h3, hm]

/-- Face 15 accepts every direction that dominates its three neighboring
face centers and clears the covering margin. -/
theorem faceAccept_15 (cart : Cvec)
    (h1 : cvDot cart (faceC 14) ≤ cvDot cart (faceC 15))
    (h2 : cvDot cart (faceC 16) ≤ cvDot cart (faceC 15))
    (h3 : cvDot cart (faceC 19) ≤ cvDot cart (faceC 15))
    (hm : (1 + gr) * (3/5000) ≤ cvDot cart (faceC 15)) :
    triAccept cart (mTri 15) := by
  rw [mTri]
  simp only [faceTable]
  simp only [faceC, faceTable, uvert, cvDot, cvAdd, gr] at h1 h2 h3 hm
  ring_nf at h1 h2 h3 hm
  refine triAccept_scaled _ _ _ _ _ _ cart ?_ ?_ ?_ ?_ ?_ <;>
    simp only [detU, nyU, nzU, kcU, uvert, cvDot, cvCross, cvSub, cvScale,
      baryEps, fltEps, gr] <;>
    ring_nf <;>
    [skip; skip; skip; skip; norm_num] <;>
    linarith [h1, h2, h3, hm]

/-- Face 16 accepts every direction that dominates its three neighboring
face centers and clears the covering margin. -/
theorem faceAccept_16 (cart : Cvec)
    (h1 : cvDot cart (faceC 12) ≤ cvDot cart (faceC 16))
    (h2 : cvDot cart (faceC 15) ≤ cvDot cart (faceC 16))
    (h3 : cvDot cart (faceC 17) ≤ cvDot cart (faceC 16))
    (hm : (1 + gr) * (3/5000) ≤ cvDot cart (faceC 16)) :
    triAccept cart (mTri 16) := by
  rw [mTri]
  simp only [faceTable]
  simp only [faceC, faceTable, uvert, cvDot, cvAdd, gr] at h1 h2 h3 hm
  ring_nf at h1 h2 h3 hm
  refine triAccept_scaled _ _ _ _ _ _ cart ?_ ?_ ?_ ?_ ?_ <;>
    simp only [detU, nyU, nzU, kcU, uvert, cvDot, cvCross, cvSub, cvScale,
      baryEps, fltEps, gr] <;>
    ring_nf <;>
    [skip; skip; skip; skip; norm_num] <;>
    linarith [h1, h2, h3, hm]

/-- Face 17 accepts every direction that dominates its three neighboring
face centers and clears the covering margin. -/
theorem faceAccept_17 (cart : Cvec)
    (h1 : cvDot cart (faceC 10) ≤ cvDot cart (faceC 17))
    (h2 : cvDot cart (faceC 16) ≤ cvDot cart (faceC 17))
    (h3 : cvDot cart (faceC 18) ≤ cvDot cart (faceC 17))
    (hm : (1 + gr) * (3/5000) ≤ cvDot cart (faceC 17)) :
    triAccept cart (mTri 17) := by
  rw [mTri]
  simp only [faceTable]
  simp only [faceC, faceTable, uvert, cvDot, cvAdd, gr] at h1 h2 h3 hm
  ring_nf at h1 h2 h3 hm
  refine triAccept_scaled _ _ _ _ _ _ cart ?_ ?_ ?_ ?_ ?_ <;>
    simp only [detU, nyU, nzU, kcU, uvert, cvDot, cvCross, cvSub, cvScale,
      baryEps, fltEps, gr] <;>
    ring_nf <;>
    [skip; skip; skip; skip; norm_num] <;>
    linarith [h1, h2, h3, hm]

/-- Face 18 accepts every direction that dominates its three neighboring
face centers and clears the covering margin. -/
theorem faceAccept_18 (cart : Cvec)
    (h1 : cvDot cart (faceC 8) ≤ cvDot cart (faceC 18))
    (h2 : cvDot cart (faceC 17) ≤ cvDot cart (faceC 18))
    (h3 : cvDot cart (faceC 19) ≤ cvDot cart (faceC 18))
    (hm : (1 + gr) * (3/5000) ≤ cvDot cart (faceC 18)) :
    triAccept cart (mTri 18) := by
  rw [mTri]
  simp only [faceTable]
  simp only [faceC, faceTable, uvert, cvDot, cvAdd, gr] at h1 h2 h3 hm
  ring_nf at h1 h2 h3 hm
  refine triAccept_scaled _ _ _ _ _ _ cart ?_ ?_ ?_ ?_ ?_ <;>
    simp only [detU, nyU, nzU, kcU, uvert, cvDot, cvCross, cvSub, cvScale,
      baryEps, fltEps, gr] <;>
    ring_nf <;>
    [skip; skip; skip; skip; norm_num] <;>
    linarith [h1, h2, h3, hm]

/-- Face 19 accepts every direction that dominates its three neighboring
face centers and clears the covering margin. -/
theorem faceAccept_19 (cart : Cvec)
    (h1 : cvDot cart (faceC 6) ≤ cvDot cart (faceC 19))
    (h2 : cvDot cart (faceC 15) ≤ cvDot cart (faceC 19))
    (h3 : cvDot cart (faceC 18) ≤ cvDot cart (faceC 19))
    (hm : (1 + gr) * (3/5000) ≤ cvDot cart (faceC 19)) :
    triAccept cart (mTri 19) := by
  rw [mTri]
  simp only [faceTable]
  simp only [faceC, faceTable, uvert, cvDot, cvAdd, gr] at h1 h2 h3 hm
  ring_nf at h1 h2 h3 hm
  refine triAccept_scaled _ _ _ _ _ _ cart ?_ ?_ ?_ ?_ ?_ <;>
    simp only [detU, nyU, nzU, kcU, uvert, cvDot, cvCross, cvSub, cvScale,
      baryEps, fltEps, gr] <;>
    ring_nf <;>
    [skip; skip; skip; skip; norm_num] <;>
    linarith [h1, h2, h3, hm]

/-- Every direction of squared norm at least `bary_eps` clears the covering
margin against one of the eight cube-diagonal face centers. -/
theorem exists_cube_dom (cart : Cvec) (h : baryEps ≤ cvNormSq cart) :
    ∃ j, j < 20 ∧ (1 + gr) * (3/5000) ≤ cvDot cart (faceC j) := by
  have habs : 3/5000 ≤ |cart.x| ∨ 3/5000 ≤ |cart.y| ∨ 3/5000 ≤ |cart.z| := by
    by_contra hcon
    push_neg at hcon
    obtain ⟨ha, hb, hc⟩ := hcon
    have hxa : cart.x * cart.x < (3/5000) * (3/5000) := by
      rw [← abs_mul_abs_self]
      exact mul_self_lt_mul_self (abs_nonneg _) ha
    have hyb : cart.y * cart.y < (3/5000) * (3/5000) := by
      rw [← abs_mul_abs_self]
      exact mul_self_lt_mul_self (abs_nonneg _) hb
    have hzc : cart.z * cart.z < (3/5000) * (3/5000) := by
      rw [← abs_mul_abs_self]
      exact mul_self_lt_mul_self (abs_nonneg _) hc
    have hsmall : cvNormSq cart < baryEps := by
      rw [cvNormSq]
      have hb30 : 3 * ((3/5000) * (3/5000) : ℝ) < baryEps := by
        norm_num [baryEps, fltEps]
      linarith
    exact absurd h (not_le.mpr hsmall)
  rcases le_or_lt 0 cart.x with hx | hx <;>
    rcases le_or_lt 0 cart.y with hy | hy <;>
    rcases le_or_lt 0 cart.z with hz | hz
  · refine ⟨1, by norm_num, ?_⟩
    simp only [faceC, faceTable, uvert, cvDot, cvAdd, gr]
    rcases habs with hA | hA | hA
    · rw [abs_of_nonneg hx] at hA
      linarith
    · rw [abs_of_nonneg hy] at hA
      linarith
    · rw [abs_of_nonneg hz] at hA
      linarith
  · refine ⟨8, by norm_num, ?_⟩
    simp only [faceC, faceTable, uvert, cvDot, cvAdd, gr]
    rcases habs with hA | hA | hA
    · rw [abs_of_nonneg hx] at hA
      linarith
    · rw [abs_of_nonneg hy] at hA
      linarith
    · rw [abs_of_neg hz] at hA
      linarith
  · refine ⟨5, by norm_num, ?_⟩
    simp only [faceC, faceTable, uvert, cvDot, cvAdd, gr]
    rcases habs with hA | hA | hA
    · rw [abs_of_nonneg hx] at hA
      linarith
    · rw [abs_of_neg hy] at hA
      linarith
    · rw [abs_of_nonneg hz] at hA
      linarith
  · refine ⟨19, by norm_num, ?_⟩
    simp only [faceC, faceTable, uvert, cvDot, cvAdd, gr]
    rcases habs with hA | hA | hA
    · rw [abs_of_nonneg hx] at hA
      linarith
    · rw [abs_of_neg hy] at hA
      linarith
    · rw [abs_of_neg hz] at hA
      linarith
  · refine ⟨3, by norm_num, ?_⟩
    simp only [faceC, faceTable, uvert, cvDot, cvAdd, gr]
    rcases habs with hA | hA | hA
    · rw [abs_of_neg hx] at hA
      linarith
    · rw [abs_of_nonneg hy] at hA
      linarith
    · rw [abs_of_nonneg hz] at hA
      linarith
  · refine ⟨10, by norm_num, ?_⟩
    simp only [faceC, faceTable, uvert, cvDot, cvAdd, gr]
    rcases habs with hA | hA | hA
    · rw [abs_of_neg hx] at hA
      linarith
    · rw [abs_of_nonneg hy] at hA
      linarith
    · rw [abs_of_neg hz] at hA
      linarith
  · refine ⟨13, by norm_num, ?_⟩
    simp only [faceC, faceTable, uvert, cvDot, cvAdd, gr]
    rcases habs with hA | hA | hA
    · rw [abs_of_neg hx] at hA
      linarith
    · rw [abs_of_neg hy] at hA
      linarith
    · rw [abs_of_nonneg hz] at hA
      linarith
  · refine ⟨16, by norm_num, ?_⟩
    simp only [faceC, faceTable, uvert, cvDot, cvAdd, gr]
    rcases habs with hA | hA | hA
    · rw [abs_of_neg hx] at hA
      linarith
    · rw [abs_of_neg hy] at hA
      linarith
    · rw [abs_of_neg hz] at hA
      linarith

/-- The covering theorem: every direction of squared norm at least
`bary_eps` is accepted by some mesh face. -/
theorem icosCover (cart : Cvec) (h : baryEps ≤ cvNormSq cart) :
    ∃ t ∈ mesh, triAccept cart t := by
  obtain ⟨j0, hj0, hm0⟩ := exists_cube_dom cart h
  obtain ⟨i, hi, hmax⟩ := Finset.exists_max_image (Finset.range 20)
    (fun k => cvDot cart (faceC k)) ⟨0, by norm_num⟩
  have hm : (1 + gr) * (3/5000) ≤ cvDot cart (faceC i) :=
    le_trans hm0 (hmax j0 (Finset.mem_range.mpr hj0))
  have hmem : ∀ k, k < 20 → mTri k ∈ mesh := by
    intro k hk
    rw [meshEq]
    exact List.mem_map.mpr ⟨k, List.mem_range.mpr hk, rfl⟩
  have hnb : ∀ j, j < 20 → cvDot cart (faceC j) ≤ cvDot cart (faceC i) :=
    fun j hj => hmax j (Finset.mem_range.mpr hj)
  have hi20 : i < 20 := Finset.mem_range.mp hi
  interval_cases i
  · exact ⟨mTri 0, hmem 0 (by norm_num),
      faceAccept_0 cart (hnb 1 (by norm_num)) (hnb 4 (by norm_num))
        (hnb 5 (by norm_num)) hm⟩
  · exact ⟨mTri 1, hmem 1 (by norm_num),
      faceAccept_1 cart (hnb 0 (by norm_num)) (hnb 2 (by norm_num))
        (hnb 7 (by norm_num)) hm⟩
  · exact ⟨mTri 2, hmem 2 (by norm_num),
      faceAccept_2 cart (hnb 1 (by norm_num)) (hnb 3 (by norm_num))
        (hnb 9 (by norm_num)) hm⟩
  · exact ⟨mTri 3, hmem 3 (by norm_num),
      faceAccept_3 cart (hnb 2 (by norm_num)) (hnb 4 (by norm_num))
        (hnb 11 (by norm_num)) hm⟩
  · exact ⟨mTri 4, hmem 4 (by norm_num),
      faceAccept_4 cart (hnb 0 (by norm_num)) (hnb 3 (by norm_num))
        (hnb 13 (by norm_num)) hm⟩
  · exact ⟨mTri 5, hmem 5 (by norm_num),
      faceAccept_5 cart (hnb 0 (by norm_num)) (hnb 6 (by norm_num))
        (hnb 14 (by norm_num)) hm⟩
  · exact ⟨mTri 6, hmem 6 (by norm_num),
      faceAccept_6 cart (hnb 5 (by norm_num)) (hnb 7 (by norm_num))
        (hnb 19 (by norm_num)) hm⟩
  · exact ⟨mTri 7, hmem 7 (by norm_num),
      faceAccept_7 cart (hnb 1 (by norm_num)) (hnb 6 (by norm_num))
        (hnb 8 (by norm_num)) hm⟩
  · exact ⟨mTri 8, hmem 8 (by norm_num),
      faceAccept_8 cart (hnb 7 (by norm_num)) (hnb 9 (by norm_num))
        (hnb 18 (by norm_num)) hm⟩
  · exact ⟨mTri 9, hmem 9 (by norm_num),
      faceAccept_9 cart (hnb 2 (by norm_num)) (hnb 8 (by norm_num))
        (hnb 10 (by norm_num)) hm⟩
  · exact ⟨mTri 10, hmem 10 (by norm_num),
      faceAccept_10 cart (hnb 9 (by norm_num)) (hnb 11 (by norm_num))
        (hnb 17 (by norm_num)) hm⟩
  · exact ⟨mTri 11, hmem 11 (by norm_num),
      faceAccept_11 cart (hnb 3 (by norm_num)) (hnb 10 (by norm_num))
        (hnb 12 (by norm_num)) hm⟩
  · exact ⟨mTri 12, hmem 12 (by norm_num),
      faceAccept_12 cart (hnb 11 (by norm_num)) (hnb 13 (by norm_num))
        (hnb 16 (by norm_num)) hm⟩
  · exact ⟨mTri 13, hmem 13 (by norm_num),
      faceAccept_13 cart (hnb 4 (by norm_num)) (hnb 12 (by norm_num))
        (hnb 14 (by norm_num)) hm⟩
  · exact ⟨mTri 14, hmem 14 (by norm_num),
      faceAccept_14 cart (hnb 5 (by norm_num)) (hnb 13 (by norm_num))
        (hnb 15 (by norm_num)) hm⟩
  · exact ⟨mTri 15, hmem 15 (by norm_num),
      faceAccept_15 cart (hnb 14 (by norm_num)) (hnb 16 (by norm_num))
        (hnb 19 (by norm_num)) hm⟩
  · exact ⟨mTri 16, hmem 16 (by norm_num),
      faceAccept_16 cart (hnb 12 (by norm_num)) (hnb 15 (by norm_num))
        (hnb 17 (by norm_num)) hm⟩
  · exact ⟨mTri 17, hmem 17 (by norm_num),
      faceAccept_17 cart (hnb 10 (by norm_num)) (hnb 16 (by norm_num))
        (hnb 18 (by norm_num)) hm⟩
  · exact ⟨mTri 18, hmem 18 (by norm_num),
      faceAccept_18 cart (hnb 8 (by norm_num)) (hnb 17 (by norm_num))
        (hnb 19 (by norm_num)) hm⟩
  · exact ⟨mTri 19, hmem 19 (by norm_num),
      faceAccept_19 cart (hnb 6 (by norm_num)) (hnb 15 (by norm_num))
        (hnb 18 (by norm_num)) hm⟩

/-- Claim C8: icos_hist_bin succeeds exactly on the vectors with
`‖x‖² ≥ bary_eps`: for every such vector the scan over the 20 faces in
declared order finds an accepting face (one with `|det| ≥ bary_eps`,
barycentric coordinates `≥ −bary_eps` and `k ≥ 0`), so the fall-through
branch after the loop (`assert(false)`) is unreachable; for smaller vectors
the function fails at its initial norm test. -/
theorem C8_icos_hist_bin_total (cart : Cvec) :
    (icos_hist_bin cart).isSome ↔ baryEps ≤ cvNormSq cart := by
  constructor
  · intro hsome
    by_contra hlt
    rw [icos_hist_bin, if_pos (not_le.mp hlt)] at hsome
    simp at hsome
  · intro h
    rw [icos_hist_bin, if_neg (not_lt.mpr h)]
    exact ihbGo_isSome cart mesh 0 (icosCover cart h)

/-! ## C7: normalize_desc (sift.c lines 1721-1749) and extract_descrip
(lines 1761-1845)

A descriptor's `DESC_NUM_TOTAL_HIST = 64` histograms of `HIST_NUMEL = 12`
bins each are modelled as a curried function `ℕ → ℕ → ℝ` (histogram index,
bin index); all norms are taken over the whole descriptor combined.
`extract_descrip` accumulates the windowed rotated gradients into the
histogram grid and then normalizes, truncates at `trunc_thresh`, and
normalizes again.  (The descriptor's output coordinates are not modelled;
the claim concerns the bins.) -/

/-- The descriptor bin grid: histogram index (0..63), bin index (0..11). -/
def DescHists : Type := ℕ → ℕ → ℝ

/-- desc_sig_fctr (sift.c line 60). -/
noncomputable def desc_sig_fctr : ℝ := 7.071067812

/-- desc_rad_fctr (sift.c line 61). -/
noncomputable def desc_rad_fctr : ℝ := 2.0

/-- trunc_thresh = 0.2f * 128.0f / DESC_NUMEL with DESC_NUMEL = 768
(sift.c line 62); the float literal `0.2f` is modelled exactly as 1/5. -/
noncomputable def trunc_thresh : ℝ := 0.2 * 128 / 768

/-- The squared-norm accumulation of normalize_desc: the sum of squared
bins over all histograms. -/
noncomputable def descSumSq (d : DescHists) : ℝ :=
  ∑ i ∈ Finset.range 64, ∑ a ∈ Finset.range 12, d i a * d i a

/-- The combined L2 norm of a descriptor. -/
noncomputable def descL2 (d : DescHists) : ℝ := Real.sqrt (descSumSq d)

/-- normalize_desc: every bin is scaled by
`1 / (sqrt(Σ bins²) + DBL_EPSILON)`. -/
noncomputable def normalize_desc (d : DescHists) : DescHists :=
  fun i a => d i a * (1 / (Real.sqrt (descSumSq d) + dblEps))

/-- The truncation pass of extract_descrip: clamp every bin to
`trunc_thresh`. -/
noncomputable def truncate_desc (d : DescHists) : DescHists :=
  fun i a => min (d i a) trunc_thresh

/-- refine_Hist: a no-op in the default ICOS_HIST build (solid-angle
weighting applies only to the spherical-histogram variant). -/
noncomputable def refine_Hist (h : ℕ → ℝ) : ℕ → ℝ := h

/-- The refine_Hist pass over all histograms of a descriptor. -/
noncomputable def refineHists (d : DescHists) : DescHists :=
  fun i => refine_Hist (d i)

/-- A 3×3 row-major rotation matrix of the keypoint. -/
structure Mat3 where
  r0 : Cvec
  r1 : Cvec
  r2 : Cvec

/-- SIFT3D_MUL_MAT_RM_CVEC. -/
noncomputable def mulMatCvec (m : Mat3) (v : Cvec) : Cvec :=
  ⟨cvDot m.r0 v, cvDot m.r1 v, cvDot m.r2 v⟩

/-- Additive update of one descriptor bin. -/
noncomputable def descAdd (d : DescHists) (i a : ℕ) (v : ℝ) : DescHists :=
  fun i2 a2 => if i2 = i ∧ a2 = a then d i2 a2 + v else d i2 a2

/-- The bin index table of a mesh face (`MESH_GET_IDX`). -/
noncomputable def meshIdx (bin j : ℕ) : ℕ :=
  let t := mesh.getD bin ⟨⟨0,0,0⟩, ⟨0,0,0⟩, ⟨0,0,0⟩, 0, 0, 0⟩
  if j = 0 then t.i0 else if j = 1 then t.i1 else t.i2

/-- SIFT3D_desc_acc_interp (ICOS_HIST variant): trilinear spatial
interpolation over the 8 surrounding histogram cells and barycentric
orientation interpolation over the face hit by the gradient; a gradient
with no accepting face (icos_hist_bin failure) contributes nothing. -/
noncomputable def desc_acc_interp (vbins : Cvec) (grad : Cvec)
    (desc : DescHists) : DescHists :=
  match icos_hist_bin grad with
  | none => desc
  | some (bary, bin) =>
    let mag := cvNorm grad
    let dvx := vbins.x - ⌊vbins.x⌋
    let dvy := vbins.y - ⌊vbins.y⌋
    let dvz := vbins.z - ⌊vbins.z⌋
    ([(0,0,0), (0,0,1), (0,1,0), (0,1,1),
      (1,0,0), (1,0,1), (1,1,0), (1,1,1)] :
        List (ℤ × ℤ × ℤ)).foldl (fun d off =>
      let x := c2i vbins.x + off.1
      let y := c2i vbins.y + off.2.1
      let z := c2i vbins.z + off.2.2
      if x < 0 ∨ x ≥ 4 ∨ y < 0 ∨ y ≥ 4 ∨ z < 0 ∨ z ≥ 4 then d
      else
        let hidx := (x + y * 4 + z * 16).toNat
        let weight := (if off.1 = 0 then 1 - dvx else dvx) *
          (if off.2.1 = 0 then 1 - dvy else dvy) *
          (if off.2.2 = 0 then 1 - dvz else dvz)
        descAdd (descAdd (descAdd d hidx (meshIdx bin 0)
            (mag * weight * bary.x))
          hidx (meshIdx bin 1) (mag * weight * bary.y))
          hidx (meshIdx bin 2) (mag * weight * bary.z)) desc

/-- The gradient-accumulation loop of extract_descrip. -/
noncomputable def extract_descrip_acc (im : Im3) (nx ny nz : ℤ) (R : Mat3)
    (xd yd zd sd_rel : ℝ) : DescHists :=
  let sigma := sd_rel * desc_sig_fctr
  let win_radius := desc_rad_fctr * sigma
  let desc_width := win_radius / Real.sqrt 2
  let desc_hw := desc_width / 2
  let desc_bin_fctr := 4 / desc_width
  (sphereBox nx ny nz xd yd zd win_radius).foldl (fun d v =>
    let vim : Cvec := ⟨(v.1 : ℝ) + 0.5 - xd, (v.2.1 : ℝ) + 0.5 - yd,
      (v.2.2 : ℝ) + 0.5 - zd⟩
    let sq_dist := cvNormSq vim
    if sq_dist > win_radius * win_radius then d
    else
      let vkp := mulMatCvec R vim
      let vbins : Cvec := ⟨(vkp.x + desc_hw) * desc_bin_fctr,
        (vkp.y + desc_hw) * desc_bin_fctr, (vkp.z + desc_hw) * desc_bin_fctr⟩
      if vbins.x < 0 ∨ vbins.y < 0 ∨ vbins.z < 0 ∨
          vbins.x ≥ 4 ∨ vbins.y ≥ 4 ∨ vbins.z ≥ 4 then d
      else
        let grad := im_grad im v.1 v.2.1 v.2.2
        let weight := Real.exp (-0.5 * sq_dist / (sigma * sigma))
        let gradw := cvScale weight grad
        let grad_rot := mulMatCvec R gradw
        desc_acc_interp vbins grad_rot d) (fun _ _ => 0)

/-- extract_descrip's histogram pipeline: accumulate, refine (no-op),
normalize, truncate, normalize again. -/
noncomputable def extract_descrip_hists (im : Im3) (nx ny nz : ℤ) (R : Mat3)
    (xd yd zd sd_rel : ℝ) : DescHists :=
  normalize_desc (truncate_desc (normalize_desc
    (refineHists (extract_descrip_acc im nx ny nz R xd yd zd sd_rel))))

/-! ### C7 theorems -/

theorem descSumSq_nonneg (d : DescHists) : 0 ≤ descSumSq d :=
  Finset.sum_nonneg fun i _ => Finset.sum_nonneg fun a _ => mul_self_nonneg _

theorem descL2_nonneg (d : DescHists) : 0 ≤ descL2 d := Real.sqrt_nonneg _

theorem dblEps_pos : (0 : ℝ) < dblEps := by norm_num [dblEps]

theorem descSumSq_normalize (d : DescHists) :
    descSumSq (normalize_desc d) =
      descSumSq d * ((1 / (Real.sqrt (descSumSq d) + dblEps)) *
        (1 / (Real.sqrt (descSumSq d) + dblEps))) := by
  simp only [descSumSq, normalize_desc, Finset.sum_mul]
  exact Finset.sum_congr rfl fun i _ => Finset.sum_congr rfl fun a _ => by ring

theorem descL2_normalize (d : DescHists) :
    descL2 (normalize_desc d) = descL2 d / (descL2 d + dblEps) := by
  have hc : 0 ≤ 1 / (Real.sqrt (descSumSq d) + dblEps) := by
    have := Real.sqrt_nonneg (descSumSq d)
    have := dblEps_pos
    positivity
  rw [descL2, descSumSq_normalize, Real.sqrt_mul (descSumSq_nonneg d),
    Real.sqrt_mul_self hc]
  simp only [descL2, mul_one_div]

theorem descL2_normalize_le_one (d : DescHists) :
    descL2 (normalize_desc d) ≤ 1 := by
  rw [descL2_normalize]
  have h0 : 0 ≤ descL2 d := descL2_nonneg d
  have hden : 0 < descL2 d + dblEps := by linarith [dblEps_pos]
  rw [div_le_one hden]
  linarith [dblEps_pos]

/-- A witness descriptor with a single unit bin. -/
noncomputable def c7d0 : DescHists :=
  fun i a => if i = 0 then if a = 0 then 1 else 0 else 0

theorem descSumSq_c7d0 : descSumSq c7d0 = 1 := by
  have inner : ∀ i ∈ Finset.range 64,
      (∑ a ∈ Finset.range 12, c7d0 i a * c7d0 i a) =
        if i = 0 then 1 else 0 := by
    intro i _
    by_cases hi : i = 0
    · subst hi
      simp [c7d0, Finset.sum_range_succ]
    · simp [c7d0, hi]
  rw [descSumSq, Finset.sum_congr rfl inner]
  simp

theorem c7d0_trunc_norm :
    descL2 (truncate_desc (normalize_desc c7d0)) = 1 / 30 := by
  have htt : trunc_thresh = 1 / 30 := by norm_num [trunc_thresh]
  have he : truncate_desc (normalize_desc c7d0) =
      fun i a => if i = 0 then if a = 0 then (1 : ℝ) / 30 else 0 else 0 := by
    funext i a
    simp only [truncate_desc, normalize_desc, descSumSq_c7d0, Real.sqrt_one,
      c7d0, htt]
    by_cases hi : i = 0
    · by_cases ha : a = 0
      · simp only [hi, ha, if_pos rfl, one_mul]
        refine min_eq_right ?_
        have h30 : 1 + dblEps ≤ 30 := by norm_num [dblEps]
        have hpos : (0 : ℝ) < 1 + dblEps := by linarith [dblEps_pos]
        calc (1 : ℝ) / 30 ≤ 1 / (1 + dblEps) :=
              one_div_le_one_div_of_le hpos h30
          _ = 1 * (1 / (1 + dblEps)) := by ring
      · simp [hi, ha]
    · simp [hi]
  rw [he]
  have hsum : descSumSq
      (fun i a => if i = 0 then if a = 0 then (1 : ℝ) / 30 else 0 else 0) =
      1 / 900 := by
    have inner : ∀ i ∈ Finset.range 64,
        (∑ a ∈ Finset.range 12,
          (if i = 0 then if a = 0 then (1 : ℝ) / 30 else 0 else 0) *
          (if i = 0 then if a = 0 then (1 : ℝ) / 30 else 0 else 0)) =
          if i = 0 then 1 / 900 else 0 := by
      intro i _
      by_cases hi : i = 0
      · subst hi
        rw [if_pos rfl]
        simp [Finset.sum_range_succ]
        norm_num
      · simp [hi]
    rw [descSumSq, Finset.sum_congr rfl inner]
    simp
  rw [descL2, hsum, show (1 / 900 : ℝ) = (1 / 30) ^ 2 by norm_num,
    Real.sqrt_sq (by norm_num)]

/-- C7: **amended**.  The spec claims every descriptor's final combined L2
norm lies within 1e-5 of 1; this fails when the accumulated histograms are
all zero (see the counterexample: a constant image).  Amended: after the
normalize-truncate-normalize pipeline the combined norm never exceeds 1,
and whenever the truncated intermediate descriptor has norm at least
1e-10 the final norm is at least 1 - 1e-5; in particular the norm bound
holds for every descriptor produced by extract_descrip. -/
theorem C7_descriptor_norm_amended (d : DescHists) (im : Im3) (nx ny nz : ℤ)
    (R : Mat3) (xd yd zd sd_rel : ℝ)
    (hbig : 1e-10 ≤ descL2 (truncate_desc (normalize_desc d))) :
    (1 - 1e-5 ≤ descL2 (normalize_desc (truncate_desc (normalize_desc d))) ∧
      descL2 (normalize_desc (truncate_desc (normalize_desc d))) ≤ 1) ∧
    descL2 (extract_descrip_hists im nx ny nz R xd yd zd sd_rel) ≤ 1 := by
  refine ⟨⟨?_, descL2_normalize_le_one _⟩, descL2_normalize_le_one _⟩
  rw [descL2_normalize]
  have heps : dblEps < 1e-15 := by norm_num [dblEps]
  have hpos : (0 : ℝ) < descL2 (truncate_desc (normalize_desc d)) + dblEps := by
    linarith [dblEps_pos]
  rw [le_div_iff hpos]
  nlinarith [dblEps_pos]

theorem C7_descriptor_norm_amended_witness :
    1e-10 ≤ descL2 (truncate_desc (normalize_desc c7d0)) ∧
    ((1 - 1e-5 ≤ descL2 (normalize_desc (truncate_desc (normalize_desc c7d0))) ∧
      descL2 (normalize_desc (truncate_desc (normalize_desc c7d0))) ≤ 1) ∧
     descL2 (extract_descrip_hists (fun _ _ _ => 0) 0 0 0
       ⟨⟨1, 0, 0⟩, ⟨0, 1, 0⟩, ⟨0, 0, 1⟩⟩ 0 0 0 0) ≤ 1) :=
  ⟨by rw [c7d0_trunc_norm]; norm_num,
   C7_descriptor_norm_amended c7d0 (fun _ _ _ => 0) 0 0 0
     ⟨⟨1, 0, 0⟩, ⟨0, 1, 0⟩, ⟨0, 0, 1⟩⟩ 0 0 0 0
     (by rw [c7d0_trunc_norm]; norm_num)⟩

/-- icos_hist_bin rejects the zero vector outright (the small-vector
check). -/
theorem icos_hist_bin_zero : icos_hist_bin ⟨0, 0, 0⟩ = none := by
  have h0 : cvNormSq ⟨0, 0, 0⟩ < baryEps := by
    have : cvNormSq ⟨0, 0, 0⟩ = 0 := by norm_num [cvNormSq]
    rw [this]
    exact baryEps_pos
  simp only [icos_hist_bin, if_pos h0]

theorem foldl_fixed {α : Type u} {β : Type v} (f : β → α → β) (l : List α)
    (b : β) (h : ∀ d v, f d v = d) : l.foldl f b = b := by
  induction l generalizing b with
  | nil => rfl
  | cons v l ih => rw [List.foldl_cons, h]; exact ih b

/-- The constant image of the counterexample. -/
noncomputable def c7im : Im3 := fun _ _ _ => 5

theorem desc_acc_interp_zero_grad (vbins : Cvec) (d : DescHists) :
    desc_acc_interp vbins ⟨0, 0, 0⟩ d = d := by
  simp only [desc_acc_interp, icos_hist_bin_zero]

/-- C7: counterexample to the claimed [1 - 1e-5, 1 + 1e-5] norm window.
On a constant image every gradient vanishes, icos_hist_bin rejects the
zero vector, the accumulated descriptor is identically zero, and the
final combined L2 norm is 0, far below 1 - 1e-5. -/
theorem C7_counterexample :
    descL2 (extract_descrip_hists c7im 6 6 6
      ⟨⟨1, 0, 0⟩, ⟨0, 1, 0⟩, ⟨0, 0, 1⟩⟩ 3 3 3 1) = 0 ∧
    ¬(1 - 1e-5 ≤ descL2 (extract_descrip_hists c7im 6 6 6
      ⟨⟨1, 0, 0⟩, ⟨0, 1, 0⟩, ⟨0, 0, 1⟩⟩ 3 3 3 1)) := by
  have hg : ∀ x y z : ℤ, im_grad c7im x y z = ⟨0, 0, 0⟩ := by
    intro x y z
    simp [im_grad, c7im]
  have h0 : ∀ (R : Mat3) (s : ℝ),
      mulMatCvec R (cvScale s ⟨0, 0, 0⟩) = ⟨0, 0, 0⟩ := by
    intro R s
    simp [mulMatCvec, cvScale, cvDot]
  have hzero : extract_descrip_acc c7im 6 6 6
      ⟨⟨1, 0, 0⟩, ⟨0, 1, 0⟩, ⟨0, 0, 1⟩⟩ 3 3 3 1 = (fun _ _ => 0) := by
    simp only [extract_descrip_acc]
    refine foldl_fixed _ _ _ ?_
    intro d v
    dsimp only
    split_ifs with h1 h2
    · rfl
    · rfl
    · rw [hg, h0, desc_acc_interp_zero_grad]
  have hn0 : normalize_desc (fun _ _ => 0) = (fun _ _ => 0) := by
    funext i a
    simp [normalize_desc]
  have ht0 : truncate_desc (fun _ _ => 0) = (fun _ _ => 0) := by
    funext i a
    have : (0 : ℝ) ≤ trunc_thresh := by norm_num [trunc_thresh]
    simp [truncate_desc, min_eq_left this]
  have hr : refineHists (fun _ _ => 0) = (fun _ _ => 0) := rfl
  have hz : descSumSq (fun _ _ => 0) = 0 := by simp [descSumSq]
  have hfinal : descL2 (extract_descrip_hists c7im 6 6 6
      ⟨⟨1, 0, 0⟩, ⟨0, 1, 0⟩, ⟨0, 0, 1⟩⟩ 3 3 3 1) = 0 := by
    rw [extract_descrip_hists, hzero, hr, hn0, ht0, hn0, descL2, hz,
      Real.sqrt_zero]
  exact ⟨hfinal, by rw [hfinal]; norm_num⟩
